import Mathlib

/-!
# Shallow embedding of the go-vtm tracker/synthesis core

This file embeds the sample-generation pipeline of the `go-vtm` repository
(ADSR envelope, oscillator, FM operator/instrument, voice, per-channel
voice allocator, sequencer/player) as Lean definitions, and proves the
behavioural properties claimed by the specification.

Modelling conventions, used uniformly below:

* Go `float64` values are modelled as exact rationals (`ℚ`).  Every
  float computation the claims depend on (tempo arithmetic at tempo 120,
  envelope stage boundaries, which are direct constant assignments) is
  exactly representable in binary64, so the rational model agrees with
  the Go program on those observations.
* The transcendental float functions `math.Sin` and `math.Pow(2, ·)` and
  the constant `math.Pi` are abstracted as parameters `fsin : ℚ → ℚ`,
  `fpow2 : ℚ → ℚ`, `fpi : ℚ`: each is one fixed pure function/constant in
  Go, and no claim below depends on its concrete values.  Theorems
  quantify over these parameters.  The note-to-frequency formula itself
  is additionally embedded over `ℝ` (`NoteToFrequency`) for the numerical
  octave-doubling claim.
* Go `int` conversions from floats truncate toward zero: `ratTrunc`.
* Go runtime panics (nil-map dereference inside voice stealing, indexing
  an empty voice pool) are modelled by `Option`: `none` is a panic.
* Go pointer-typed voices are modelled by their pool index; a
  `map[int]*synth.Voice` becomes `ℤ → Option ℕ` returning pool indices.
-/

namespace VTM

/-- Go's `int(x)` conversion for floats: truncation toward zero.  On a
normalized rational `num/den` (`den > 0`) this is T-division of the
numerator by the denominator. -/
def ratTrunc (q : ℚ) : ℤ :=
  Int.tdiv q.num (q.den : ℤ)

/-- Go's `math.Mod(x, 1.0)`: `x` minus its integer part, truncated toward zero. -/
def goMod1 (q : ℚ) : ℚ :=
  q - (ratTrunc q : ℚ)

/-! ## Envelope (src/cmd/musicplayer/main.go, `synth.Envelope`) -/

/-- `EnvelopeStage` from the source: the five ADSR machine states. -/
inductive EnvelopeStage where
  | Attack
  | Decay
  | Sustain
  | Release
  | Off
deriving DecidableEq, Repr

/-- `synth.Envelope`: ADSR envelope generator state.  `sampleCount` is a
Go `int`, kept as `ℤ` so comparisons with the (possibly negative)
truncated stage lengths are literal. -/
structure Envelope where
  attackTime : ℚ
  decayTime : ℚ
  sustainLevel : ℚ
  releaseTime : ℚ
  stage : EnvelopeStage
  level : ℚ
  sampleRate : ℚ
  sampleCount : ℤ
deriving DecidableEq, Repr

/-- `NewEnvelope`: starts `Off` at level 0 (Go zero value for `sampleCount`). -/
def NewEnvelope (attack decay sustain rel sampleRate : ℚ) : Envelope :=
  { attackTime := attack
    decayTime := decay
    sustainLevel := sustain
    releaseTime := rel
    sampleRate := sampleRate
    stage := .Off
    level := 0
    sampleCount := 0 }

/-- `attackSamples := int(e.attackTime * e.sampleRate)` as recomputed in `Next`. -/
def Envelope.attackSamples (e : Envelope) : ℤ :=
  ratTrunc (e.attackTime * e.sampleRate)

/-- `decaySamples := int(e.decayTime * e.sampleRate)` as recomputed in `Next`. -/
def Envelope.decaySamples (e : Envelope) : ℤ :=
  ratTrunc (e.decayTime * e.sampleRate)

/-- `releaseSamples := int(e.releaseTime * e.sampleRate)` as recomputed in `Next`. -/
def Envelope.releaseSamples (e : Envelope) : ℤ :=
  ratTrunc (e.releaseTime * e.sampleRate)

/-- `Envelope.Trigger`: restart from the attack stage. -/
def Envelope.Trigger (e : Envelope) : Envelope :=
  { e with stage := .Attack, sampleCount := 0 }

/-- `Envelope.Release`: move to the release stage unless already `Off`. -/
def Envelope.Release (e : Envelope) : Envelope :=
  if e.stage ≠ .Off then { e with stage := .Release, sampleCount := 0 } else e

/-- `Envelope.Next`: one per-sample advance, returning the new level and state. -/
def Envelope.Next (e : Envelope) : ℚ × Envelope :=
  match e.stage with
  | .Attack =>
      let attackSamples := e.attackSamples
      if attackSamples = 0 then
        let e := { e with level := 1, stage := .Decay, sampleCount := 0 }
        (e.level, e)
      else if e.sampleCount ≥ attackSamples then
        let e := { e with level := 1, stage := .Decay, sampleCount := 0 }
        (e.level, e)
      else
        let e := { e with level := (e.sampleCount : ℚ) / (attackSamples : ℚ),
                          sampleCount := e.sampleCount + 1 }
        (e.level, e)
  | .Decay =>
      let decaySamples := e.decaySamples
      if decaySamples = 0 then
        let e := { e with level := e.sustainLevel, stage := .Sustain }
        (e.level, e)
      else if e.sampleCount ≥ decaySamples then
        let e := { e with level := e.sustainLevel, stage := .Sustain }
        (e.level, e)
      else
        let t : ℚ := (e.sampleCount : ℚ) / (decaySamples : ℚ)
        let e := { e with level := 1 + t * (e.sustainLevel - 1),
                          sampleCount := e.sampleCount + 1 }
        (e.level, e)
  | .Sustain =>
      let e := { e with level := e.sustainLevel }
      (e.level, e)
  | .Release =>
      let releaseSamples := e.releaseSamples
      let startLevel := e.sustainLevel
      if releaseSamples = 0 then
        let e := { e with level := 0, stage := .Off }
        (e.level, e)
      else if e.sampleCount ≥ releaseSamples then
        let e := { e with level := 0, stage := .Off }
        (e.level, e)
      else
        let t : ℚ := (e.sampleCount : ℚ) / (releaseSamples : ℚ)
        let e := { e with level := startLevel * (1 - t),
                          sampleCount := e.sampleCount + 1 }
        (e.level, e)
  | .Off =>
      let e := { e with level := 0 }
      (e.level, e)

/-- `Envelope.IsActive`: every stage except `Off` is active. -/
def Envelope.IsActive (e : Envelope) : Bool :=
  e.stage ≠ .Off

/-- The state part of one `Next` call (callers discard the returned level). -/
def Envelope.step (e : Envelope) : Envelope :=
  e.Next.2

/-- `n` consecutive `Next` calls (state part). -/
def Envelope.stepN (e : Envelope) : ℕ → Envelope
  | 0 => e
  | n + 1 => (e.step).stepN n


/-- Stages in which a triggered, not-yet-released envelope can sit. -/
def EnvelopeStage.isLive : EnvelopeStage → Bool
  | .Attack => true
  | .Decay => true
  | .Sustain => true
  | _ => false

/-! ## Note-to-frequency conversion (src/unnamed/part_002, `synth.NoteToFrequency`) -/

/-- `NoteToFrequency` over the reals: `440 * 2^((note-57)/12)`, the exact
mathematical reading of the source formula (which computes it with
`math.Pow`). -/
noncomputable def NoteToFrequency (note : ℤ) : ℝ :=
  440 * (2 : ℝ) ^ (((note : ℝ) - 57) / 12)

/-- `NoteToFrequency` as used inside the synthesis pipeline, with the float
function `x ↦ math.Pow(2, x)` abstracted as the parameter `fpow2`. -/
def noteFreqQ (fpow2 : ℚ → ℚ) (note : ℤ) : ℚ :=
  440 * fpow2 (((note : ℚ) - 57) / 12)

/-! ## Oscillator (src/cmd/musicplayer/main.go, `synth.Oscillator`) -/

/-- `synth.WaveType`. -/
inductive WaveType where
  | Square
  | Saw
  | Triangle
  | Sine
  | Noise
deriving DecidableEq, Repr

/-- `synth.Oscillator`. -/
structure Oscillator where
  waveType : WaveType
  frequency : ℚ
  phase : ℚ
  sampleRate : ℚ
deriving DecidableEq, Repr

/-- `NewOscillator` (Go zero value for `frequency`). -/
def NewOscillator (waveType : WaveType) (sampleRate : ℚ) : Oscillator :=
  { waveType := waveType, frequency := 0, phase := 0, sampleRate := sampleRate }

/-- `Oscillator.SetFrequency`. -/
def Oscillator.SetFrequency (o : Oscillator) (freq : ℚ) : Oscillator :=
  { o with frequency := freq }

/-- `Oscillator.Next`: one waveform sample from the current phase, then the
phase advances by `frequency/sampleRate` and wraps by subtracting 1.
`fsin` abstracts `math.Sin`, `fpi` abstracts `math.Pi`; the noise branch is
the source's deterministic `2*math.Mod(phase*12345.6789, 1) - 1`. -/
def Oscillator.Next (fsin : ℚ → ℚ) (fpi : ℚ) (o : Oscillator) : ℚ × Oscillator :=
  let sample : ℚ :=
    match o.waveType with
    | .Square => if o.phase < 0.5 then 1 else -1
    | .Saw => 2 * o.phase - 1
    | .Triangle => if o.phase < 0.5 then 4 * o.phase - 1 else 3 - 4 * o.phase
    | .Sine => fsin (2 * fpi * o.phase)
    | .Noise => 2 * goMod1 (o.phase * (123456789 / 10000 : ℚ)) - 1
  let phase1 := o.phase + o.frequency / o.sampleRate
  let phase2 := if phase1 >= 1 then phase1 - 1 else phase1
  (sample, { o with phase := phase2 })

/-- `Oscillator.Reset`. -/
def Oscillator.Reset (o : Oscillator) : Oscillator :=
  { o with phase := 0 }

/-! ## FM operator (src/synth/fm_operator.go) -/

/-- `synth.FMOperator`: a phase-modulatable sine generator with its own
envelope. -/
structure FMOperator where
  phase : ℚ
  frequency : ℚ
  sampleRate : ℚ
  envelope : Envelope
  outputLevel : ℚ
  ratio : ℚ
deriving DecidableEq, Repr

/-- `NewFMOperator` (Go zero value for `frequency`). -/
def NewFMOperator (sampleRate : ℚ) : FMOperator :=
  { phase := 0
    frequency := 0
    sampleRate := sampleRate
    envelope := NewEnvelope 0.01 0.1 0.6 0.2 sampleRate
    outputLevel := 1
    ratio := 1 }

/-- `FMOperator.SetEnvelope`: replaces the envelope wholesale. -/
def FMOperator.SetEnvelope (op : FMOperator) (attack decay sustain rel : ℚ) : FMOperator :=
  { op with envelope := NewEnvelope attack decay sustain rel op.sampleRate }

/-- `FMOperator.SetRatio`. -/
def FMOperator.SetRatio (op : FMOperator) (ratio : ℚ) : FMOperator :=
  { op with ratio := ratio }

/-- `FMOperator.SetOutputLevel`. -/
def FMOperator.SetOutputLevel (op : FMOperator) (level : ℚ) : FMOperator :=
  { op with outputLevel := level }

/-- `FMOperator.SetFrequency`: stores `freq * ratio`. -/
def FMOperator.SetFrequency (op : FMOperator) (freq : ℚ) : FMOperator :=
  { op with frequency := freq * op.ratio }

/-- `FMOperator.Trigger`: trigger the envelope and reset the phase. -/
def FMOperator.Trigger (op : FMOperator) : FMOperator :=
  { op with envelope := op.envelope.Trigger, phase := 0 }

/-- `FMOperator.Release`. -/
def FMOperator.Release (op : FMOperator) : FMOperator :=
  { op with envelope := op.envelope.Release }

/-- `FMOperator.Next`: advance the envelope, emit
`sin(2π·phase + modulation) * env * outputLevel`, advance and wrap the
phase (`phase -= floor(phase)` when it reaches 1). -/
def FMOperator.Next (fsin : ℚ → ℚ) (fpi : ℚ) (op : FMOperator) (modulation : ℚ) :
    ℚ × FMOperator :=
  let env := op.envelope.Next
  let sample := fsin (2 * fpi * op.phase + modulation)
  let phase1 := op.phase + op.frequency / op.sampleRate
  let phase2 := if phase1 >= 1 then phase1 - (⌊phase1⌋ : ℚ) else phase1
  (sample * env.1 * op.outputLevel, { op with envelope := env.2, phase := phase2 })

/-- `FMOperator.IsActive`: the envelope's activity. -/
def FMOperator.IsActive (op : FMOperator) : Bool :=
  op.envelope.IsActive

/-! ## FM instrument (src/synth/fm_instrument.go) -/

/-- `synth.FMAlgorithm`. -/
inductive FMAlgorithm where
  | FM2OpSimple
  | FM2OpParallel
  | FM3OpStack
  | FM4OpPiano
deriving DecidableEq, Repr

/-- `synth.FMInstrument`. -/
structure FMInstrument where
  operators : List FMOperator
  algorithm : FMAlgorithm
  modulationIndex : ℚ
  sampleRate : ℚ
  baseFrequency : ℚ
  volume : ℚ
deriving DecidableEq, Repr

/-- In-place update of one list element; identity when the index is out of
range (mirrors the Go setters' `if opIndex < len` guards). -/
def listModify {α : Type _} : List α → ℕ → (α → α) → List α
  | [], _, _ => []
  | a :: as, 0, f => f a :: as
  | a :: as, n + 1, f => a :: listModify as n f

/-- Index of the first list element satisfying `p` (the Go
`for _, v := range ...` search loops). -/
def listFindIdx {α : Type _} (p : α → Bool) : List α → Option ℕ
  | [] => none
  | a :: as => if p a then some 0 else (listFindIdx p as).map (· + 1)

/-- `NewFMInstrument` (Go zero value for `baseFrequency`). -/
def NewFMInstrument (numOperators : ℕ) (algorithm : FMAlgorithm) (sampleRate : ℚ) :
    FMInstrument :=
  { operators := List.replicate numOperators (NewFMOperator sampleRate)
    algorithm := algorithm
    modulationIndex := 2
    sampleRate := sampleRate
    baseFrequency := 0
    volume := 1 }

/-- `FMInstrument.SetOperatorRatio` (guarded by `opIndex < len`). -/
def FMInstrument.SetOperatorRatio (fm : FMInstrument) (opIndex : ℕ) (ratio : ℚ) :
    FMInstrument :=
  if opIndex < fm.operators.length then
    { fm with operators := listModify fm.operators opIndex (fun op => op.SetRatio ratio) }
  else fm

/-- `FMInstrument.SetOperatorEnvelope` (guarded by `opIndex < len`). -/
def FMInstrument.SetOperatorEnvelope (fm : FMInstrument) (opIndex : ℕ)
    (attack decay sustain rel : ℚ) : FMInstrument :=
  if opIndex < fm.operators.length then
    { fm with operators :=
        listModify fm.operators opIndex (fun op => op.SetEnvelope attack decay sustain rel) }
  else fm

/-- `FMInstrument.SetOperatorLevel` (guarded by `opIndex < len`). -/
def FMInstrument.SetOperatorLevel (fm : FMInstrument) (opIndex : ℕ) (level : ℚ) :
    FMInstrument :=
  if opIndex < fm.operators.length then
    { fm with operators := listModify fm.operators opIndex (fun op => op.SetOutputLevel level) }
  else fm

/-- `FMInstrument.SetModulationIndex`. -/
def FMInstrument.SetModulationIndex (fm : FMInstrument) (index : ℚ) : FMInstrument :=
  { fm with modulationIndex := index }

/-- `FMInstrument.NoteOn`: store base frequency and velocity, then set the
frequency of and trigger every operator. -/
def FMInstrument.NoteOn (fpow2 : ℚ → ℚ) (fm : FMInstrument) (note : ℤ) (velocity : ℚ) :
    FMInstrument :=
  let base := noteFreqQ fpow2 note
  { fm with baseFrequency := base
            volume := velocity
            operators := fm.operators.map (fun op => (op.SetFrequency base).Trigger) }

/-- `FMInstrument.NoteOff`: release every operator. -/
def FMInstrument.NoteOff (fm : FMInstrument) : FMInstrument :=
  { fm with operators := fm.operators.map FMOperator.Release }

/-- `FMInstrument.Next`: one sample according to the wiring of the selected
algorithm.  Operators beyond the algorithm's requirement are not advanced;
if there are fewer operators than required the output stays 0 and no
operator is advanced, exactly as in the source's guarded branches. -/
def FMInstrument.Next (fsin : ℚ → ℚ) (fpi : ℚ) (fm : FMInstrument) : ℚ × FMInstrument :=
  match fm.operators with
  | [] => (0, fm)
  | _ =>
    let r :=
      match fm.algorithm, fm.operators with
      | .FM2OpSimple, op0 :: op1 :: rest =>
          let r1 := FMOperator.Next fsin fpi op1 0
          let modulator := r1.1 * fm.modulationIndex
          let r0 := FMOperator.Next fsin fpi op0 modulator
          (r0.1, r0.2 :: r1.2 :: rest)
      | .FM2OpParallel, op0 :: op1 :: rest =>
          let r0 := FMOperator.Next fsin fpi op0 0
          let r1 := FMOperator.Next fsin fpi op1 0
          ((r0.1 + r1.1) * 0.5, r0.2 :: r1.2 :: rest)
      | .FM3OpStack, op0 :: op1 :: op2 :: rest =>
          let r2 := FMOperator.Next fsin fpi op2 0
          let mod2 := r2.1 * fm.modulationIndex
          let r1 := FMOperator.Next fsin fpi op1 mod2
          let mod1 := r1.1 * fm.modulationIndex
          let r0 := FMOperator.Next fsin fpi op0 mod1
          (r0.1, r0.2 :: r1.2 :: r2.2 :: rest)
      | .FM4OpPiano, op0 :: op1 :: op2 :: op3 :: rest =>
          let r3 := FMOperator.Next fsin fpi op3 0
          let mod4 := r3.1 * fm.modulationIndex * 0.5
          let r2 := FMOperator.Next fsin fpi op2 mod4
          let mod3 := r2.1 * fm.modulationIndex
          let r1 := FMOperator.Next fsin fpi op1 0
          let mod2 := r1.1 * fm.modulationIndex * 0.3
          let r0 := FMOperator.Next fsin fpi op0 (mod3 + mod2)
          (r0.1, r0.2 :: r1.2 :: r2.2 :: r3.2 :: rest)
      | _, ops => (0, ops)
    (r.1 * fm.volume, { fm with operators := r.2 })

/-- `FMInstrument.IsActive`: true iff any operator is active. -/
def FMInstrument.IsActive (fm : FMInstrument) : Bool :=
  fm.operators.any FMOperator.IsActive

/-- `NewPianoFMInstrument` preset. -/
def NewPianoFMInstrument (sampleRate : ℚ) : FMInstrument :=
  let fm := NewFMInstrument 4 .FM4OpPiano sampleRate
  let fm := (fm.SetOperatorRatio 0 1.0).SetOperatorEnvelope 0 0.001 0.3 0.0 0.2
  let fm := fm.SetOperatorLevel 0 1.0
  let fm := (fm.SetOperatorRatio 1 2.0).SetOperatorEnvelope 1 0.001 0.15 0.0 0.1
  let fm := fm.SetOperatorLevel 1 0.7
  let fm := (fm.SetOperatorRatio 2 3.5).SetOperatorEnvelope 2 0.001 0.2 0.0 0.15
  let fm := fm.SetOperatorLevel 2 0.5
  let fm := (fm.SetOperatorRatio 3 5.0).SetOperatorEnvelope 3 0.0005 0.05 0.0 0.05
  let fm := fm.SetOperatorLevel 3 0.4
  fm.SetModulationIndex 1.5

/-- `NewElectricPianoFMInstrument` preset. -/
def NewElectricPianoFMInstrument (sampleRate : ℚ) : FMInstrument :=
  let fm := NewFMInstrument 2 .FM2OpSimple sampleRate
  let fm := (fm.SetOperatorRatio 0 1.0).SetOperatorEnvelope 0 0.002 0.4 0.3 0.3
  let fm := fm.SetOperatorLevel 0 1.0
  let fm := (fm.SetOperatorRatio 1 14.0).SetOperatorEnvelope 1 0.001 0.2 0.0 0.2
  let fm := fm.SetOperatorLevel 1 0.8
  fm.SetModulationIndex 3.0

/-- `NewFMBassFMInstrument` preset. -/
def NewFMBassFMInstrument (sampleRate : ℚ) : FMInstrument :=
  let fm := NewFMInstrument 3 .FM3OpStack sampleRate
  let fm := (fm.SetOperatorRatio 0 1.0).SetOperatorEnvelope 0 0.001 0.2 0.7 0.15
  let fm := fm.SetOperatorLevel 0 1.0
  let fm := (fm.SetOperatorRatio 1 2.01).SetOperatorEnvelope 1 0.001 0.15 0.5 0.1
  let fm := fm.SetOperatorLevel 1 0.9
  let fm := (fm.SetOperatorRatio 2 4.0).SetOperatorEnvelope 2 0.0005 0.08 0.2 0.05
  let fm := fm.SetOperatorLevel 2 0.7
  fm.SetModulationIndex 3.5

/-- `NewFMLeadFMInstrument` preset. -/
def NewFMLeadFMInstrument (sampleRate : ℚ) : FMInstrument :=
  let fm := NewFMInstrument 2 .FM2OpSimple sampleRate
  let fm := (fm.SetOperatorRatio 0 1.0).SetOperatorEnvelope 0 0.005 0.1 0.8 0.15
  let fm := fm.SetOperatorLevel 0 1.0
  let fm := (fm.SetOperatorRatio 1 3.0).SetOperatorEnvelope 1 0.002 0.08 0.6 0.1
  let fm := fm.SetOperatorLevel 1 1.0
  fm.SetModulationIndex 5.0

/-- `NewFMBrassFMInstrument` preset. -/
def NewFMBrassFMInstrument (sampleRate : ℚ) : FMInstrument :=
  let fm := NewFMInstrument 3 .FM3OpStack sampleRate
  let fm := (fm.SetOperatorRatio 0 1.0).SetOperatorEnvelope 0 0.02 0.15 0.7 0.2
  let fm := fm.SetOperatorLevel 0 1.0
  let fm := (fm.SetOperatorRatio 1 1.5).SetOperatorEnvelope 1 0.015 0.12 0.6 0.15
  let fm := fm.SetOperatorLevel 1 0.8
  let fm := (fm.SetOperatorRatio 2 3.0).SetOperatorEnvelope 2 0.01 0.1 0.5 0.12
  let fm := fm.SetOperatorLevel 2 0.6
  fm.SetModulationIndex 2.0

/-- `NewFMBellFMInstrument` preset. -/
def NewFMBellFMInstrument (sampleRate : ℚ) : FMInstrument :=
  let fm := NewFMInstrument 2 .FM2OpSimple sampleRate
  let fm := (fm.SetOperatorRatio 0 1.0).SetOperatorEnvelope 0 0.001 0.5 0.2 0.4
  let fm := fm.SetOperatorLevel 0 1.0
  let fm := (fm.SetOperatorRatio 1 11.0).SetOperatorEnvelope 1 0.001 0.3 0.0 0.3
  let fm := fm.SetOperatorLevel 1 0.9
  fm.SetModulationIndex 4.0

/-- `NewFMArpFMInstrument` preset. -/
def NewFMArpFMInstrument (sampleRate : ℚ) : FMInstrument :=
  let fm := NewFMInstrument 2 .FM2OpSimple sampleRate
  let fm := (fm.SetOperatorRatio 0 1.0).SetOperatorEnvelope 0 0.001 0.05 0.3 0.05
  let fm := fm.SetOperatorLevel 0 1.0
  let fm := (fm.SetOperatorRatio 1 2.0).SetOperatorEnvelope 1 0.001 0.03 0.1 0.03
  let fm := fm.SetOperatorLevel 1 0.85
  fm.SetModulationIndex 2.5

/-! ## Voice (src/unnamed/part_001, merged oscillator/FM `synth.Voice`) -/

/-- `synth.Voice`.  In Go the unused engine's pointers are `nil`; here the
`oscillator`/`envelope` fields of an FM voice hold inert placeholder values
and `fmInstrument` is `none` for a subtractive voice.  Every method guards
exactly like the source (`v.useFM && v.fmInstrument != nil`), so the
placeholders are never read on the paths the source executes. -/
structure Voice where
  oscillator : Oscillator
  envelope : Envelope
  fmInstrument : Option FMInstrument
  useFM : Bool
  volume : ℚ
  active : Bool
  sampleRate : ℚ
deriving DecidableEq, Repr

/-- `NewVoice`: a subtractive voice with the default 0.01/0.1/0.6/0.2 ADSR. -/
def NewVoice (waveType : WaveType) (sampleRate : ℚ) : Voice :=
  { oscillator := NewOscillator waveType sampleRate
    envelope := NewEnvelope 0.01 0.1 0.6 0.2 sampleRate
    fmInstrument := none
    useFM := false
    volume := 1
    active := false
    sampleRate := sampleRate }

/-- `NewFMVoice` (oscillator/envelope are `nil` in Go: placeholders here). -/
def NewFMVoice (fmInstrument : FMInstrument) : Voice :=
  { oscillator := NewOscillator .Square fmInstrument.sampleRate
    envelope := NewEnvelope 0 0 0 0 fmInstrument.sampleRate
    fmInstrument := some fmInstrument
    useFM := true
    volume := 1
    active := false
    sampleRate := fmInstrument.sampleRate }

/-- `Voice.SetInstrument` (no-op for FM voices). -/
def Voice.SetInstrument (v : Voice) (waveType : WaveType)
    (attack decay sustain rel : ℚ) : Voice :=
  if v.useFM then v
  else
    { v with
        oscillator := { v.oscillator with waveType := waveType }
        envelope := { v.envelope with attackTime := attack, decayTime := decay,
                                      sustainLevel := sustain, releaseTime := rel } }

/-- `Voice.NoteOn`: store the velocity, set the busy flag, then start the
underlying engine. -/
def Voice.NoteOn (fpow2 : ℚ → ℚ) (v : Voice) (note : ℤ) (volume : ℚ) : Voice :=
  let v := { v with volume := volume, active := true }
  match v.useFM, v.fmInstrument with
  | true, some fm => { v with fmInstrument := some (fm.NoteOn fpow2 note volume) }
  | _, _ =>
      { v with oscillator := v.oscillator.SetFrequency (noteFreqQ fpow2 note)
               envelope := v.envelope.Trigger }

/-- `Voice.NoteOff`: release the underlying engine (the busy flag is NOT
cleared here; only `Next` clears it once the engine reports inactive). -/
def Voice.NoteOff (v : Voice) : Voice :=
  match v.useFM, v.fmInstrument with
  | true, some fm => { v with fmInstrument := some fm.NoteOff }
  | _, _ => { v with envelope := v.envelope.Release }

/-- `Voice.Next`: 0 while neither the busy flag nor the engine is active;
otherwise advance the engine, clear the busy flag once the engine goes
inactive, and emit the engine sample (times `env * volume` on the
subtractive path; FM applies velocity internally). -/
def Voice.Next (fsin : ℚ → ℚ) (fpi : ℚ) (v : Voice) : ℚ × Voice :=
  match v.useFM, v.fmInstrument with
  | true, some fm =>
      if !v.active && !fm.IsActive then (0, v)
      else
        let r := FMInstrument.Next fsin fpi fm
        let v := { v with fmInstrument := some r.2 }
        let v := if !(r.2).IsActive then { v with active := false } else v
        (r.1, v)
  | _, _ =>
      if !v.active && !v.envelope.IsActive then (0, v)
      else
        let osc := Oscillator.Next fsin fpi v.oscillator
        let env := v.envelope.Next
        let v := { v with oscillator := osc.2, envelope := env.2 }
        let v := if !(env.2).IsActive then { v with active := false } else v
        (osc.1 * env.1 * v.volume, v)

/-- `Voice.IsActive`: busy flag OR underlying engine active. -/
def Voice.IsActive (v : Voice) : Bool :=
  match v.useFM, v.fmInstrument with
  | true, some fm => v.active || fm.IsActive
  | _, _ => v.active || v.envelope.IsActive

/-! ## Instrument descriptor (src/tracker/tracker.go, `tracker.Instrument`) -/

/-- `tracker.Instrument` (the `FMAlgorithm`/`FMParams` fields are never read
by the embedded core paths and are omitted). -/
structure Instrument where
  Name : String
  WaveType : WaveType
  Attack : ℚ
  Decay : ℚ
  Sustain : ℚ
  Release : ℚ
  IsFM : Bool
  FMPreset : String
deriving DecidableEq, Repr

/-! ## Voice allocator (src/audio/playback_stub.go, `audio.VoiceAllocator`) -/

/-- `audio.VoiceAllocator`.  Go's `map[int]*synth.Voice` is modelled as
`ℤ → Option ℕ` returning the pool index of the mapped voice (pool voices
are allocated once and never reallocated, so the index identifies the
pointer). -/
structure VoiceAllocator where
  voices : List Voice
  noteMap : ℤ → Option ℕ
  instrument : Instrument
  sampleRate : ℚ
  maxVoices : ℕ
  activeNotes : List ℤ

/-- The preset dispatch inside `NewVoiceAllocator` (default: FM lead). -/
def fmPresetFor (preset : String) (sampleRate : ℚ) : FMInstrument :=
  if preset = "PIANO" then NewPianoFMInstrument sampleRate
  else if preset = "EPIANO" then NewElectricPianoFMInstrument sampleRate
  else if preset = "BASS" then NewFMBassFMInstrument sampleRate
  else if preset = "LEAD" then NewFMLeadFMInstrument sampleRate
  else if preset = "BRASS" then NewFMBrassFMInstrument sampleRate
  else if preset = "BELL" then NewFMBellFMInstrument sampleRate
  else if preset = "ARP" then NewFMArpFMInstrument sampleRate
  else NewFMLeadFMInstrument sampleRate

/-- One pool voice as built by `NewVoiceAllocator` (each loop iteration
constructs the same state). -/
def allocatorVoice (instrument : Instrument) (sampleRate : ℚ) : Voice :=
  if instrument.IsFM then
    NewFMVoice (fmPresetFor instrument.FMPreset sampleRate)
  else
    (NewVoice instrument.WaveType sampleRate).SetInstrument instrument.WaveType
      instrument.Attack instrument.Decay instrument.Sustain instrument.Release

/-- `NewVoiceAllocator`. -/
def NewVoiceAllocator (instrument : Instrument) (sampleRate : ℚ) (maxVoices : ℕ) :
    VoiceAllocator :=
  { voices := List.replicate maxVoices (allocatorVoice instrument sampleRate)
    noteMap := fun _ => none
    instrument := instrument
    sampleRate := sampleRate
    maxVoices := maxVoices
    activeNotes := [] }

/-- `VoiceAllocator.NoteOn`.  `none` models the two Go panic points: a
voice steal whose map lookup misses (nil-pointer call) and the empty-pool
fallback `va.voices[0]` (index out of range). -/
def VoiceAllocator.NoteOn (fpow2 : ℚ → ℚ) (va : VoiceAllocator) (note : ℤ)
    (velocity : ℚ) : Option VoiceAllocator :=
  match va.noteMap note with
  | some i =>
      -- already playing: restart the same voice, order unchanged
      some { va with voices := listModify va.voices i
                       (fun v => v.NoteOn fpow2 note velocity) }
  | none =>
      match listFindIdx (fun v => !v.IsActive) va.voices with
      | some j =>
          some { va with
                   voices := listModify va.voices j (fun v => v.NoteOn fpow2 note velocity)
                   noteMap := fun n => if n = note then some j else va.noteMap n
                   activeNotes := va.activeNotes ++ [note] }
      | none =>
          match va.activeNotes with
          | oldestNote :: rest =>
              match va.noteMap oldestNote with
              | some i =>
                  some { va with
                           voices := listModify va.voices i
                             (fun v => v.NoteOn fpow2 note velocity)
                           noteMap := fun n =>
                             if n = note then some i
                             else if n = oldestNote then none
                             else va.noteMap n
                           activeNotes := rest ++ [note] }
              | none => none
          | [] =>
              match va.voices with
              | [] => none
              | _ =>
                  some { va with
                           voices := listModify va.voices 0
                             (fun v => v.NoteOn fpow2 note velocity)
                           noteMap := fun n => if n = note then some 0 else va.noteMap n
                           activeNotes := va.activeNotes ++ [note] }

/-- `VoiceAllocator.NoteOff`: release the mapped voice, drop the mapping and
the (first) list entry; a no-op for unmapped notes. -/
def VoiceAllocator.NoteOff (va : VoiceAllocator) (note : ℤ) : VoiceAllocator :=
  match va.noteMap note with
  | some i =>
      { va with voices := listModify va.voices i Voice.NoteOff
                noteMap := fun n => if n = note then none else va.noteMap n
                activeNotes := va.activeNotes.erase note }
  | none => va

/-- `VoiceAllocator.AllNotesOff`: release every voice, clear map and list. -/
def VoiceAllocator.AllNotesOff (va : VoiceAllocator) : VoiceAllocator :=
  { va with voices := va.voices.map Voice.NoteOff
            noteMap := fun _ => none
            activeNotes := [] }

/-- The loop body of `VoiceAllocator.Next`: accumulate the outputs of the
voices whose `IsActive` is true in their pre-call state, counting them, and
advance exactly those voices. -/
def mixVoices (fsin : ℚ → ℚ) (fpi : ℚ) : List Voice → ℚ × ℕ × List Voice
  | [] => (0, 0, [])
  | v :: vs =>
      let (s, c, vsNew) := mixVoices fsin fpi vs
      if v.IsActive then
        let (out, vNew) := Voice.Next fsin fpi v
        (out + s, c + 1, vNew :: vsNew)
      else
        (s, c, v :: vsNew)

/-- `VoiceAllocator.Next`: sum the active voices and divide by their count
(`if activeCount > 0`), leaving the 0 sum untouched otherwise. -/
def VoiceAllocator.Next (fsin : ℚ → ℚ) (fpi : ℚ) (va : VoiceAllocator) :
    ℚ × VoiceAllocator :=
  let (s, c, voicesNew) := mixVoices fsin fpi va.voices
  let sample := if 0 < c then s / (c : ℚ) else s
  (sample, { va with voices := voicesNew })

/-- `VoiceAllocator.GetActiveNotes` (returns a copy in Go). -/
def VoiceAllocator.GetActiveNotes (va : VoiceAllocator) : List ℤ :=
  va.activeNotes

/-- `VoiceAllocator.GetActiveVoiceCount`. -/
def VoiceAllocator.GetActiveVoiceCount (va : VoiceAllocator) : ℕ :=
  va.activeNotes.length

/-! ## Tracker data model (src/tracker/tracker.go) -/

/-- `tracker.TrackerNote`.  The `Chord` field is used by
`audio/player.go` but absent from the `tracker.go` under `src/`; it is
modelled from the spec: "optional simultaneous extra pitches (chord)", a
list of pitches, Go `nil` being the empty list.  `Instrument`/`Effect`
are never read by the core and are omitted. -/
structure TrackerNote where
  Note : ℤ
  Volume : ℚ
  Chord : List ℤ
deriving DecidableEq, Repr

/-- `tracker.Pattern`. -/
structure Pattern where
  Rows : ℕ
  Channels : List (List TrackerNote)
deriving DecidableEq, Repr

/-- `tracker.TrackerModule`.  Sequence entries are pattern indices; the Go
field is `[]int`, but a negative entry would crash `processRow`
(`Patterns[patternIdx]` panics), so indices are modelled as `ℕ`. -/
structure TrackerModule where
  Title : String
  Tempo : ℤ
  Patterns : List Pattern
  Sequence : List ℕ
  Instruments : List Instrument
deriving DecidableEq, Repr

/-! ## Player (src/audio/player.go) -/

/-- `audio.Player`.  The cursor fields `currentPos`/`currentRow`/
`sampleCounter` are Go `int`s that only ever hold non-negative values
(increments and resets to 0), modelled as `ℕ`; `samplesPerRow` is kept as
`ℤ` because the truncated tempo arithmetic may produce any integer. -/
structure Player where
  module : TrackerModule
  VoiceAllocators : List VoiceAllocator
  sampleRate : ℚ
  currentPos : ℕ
  currentRow : ℕ
  sampleCounter : ℕ
  samplesPerRow : ℤ
  done : Bool
  maxPolyphony : ℕ

/-- The default instrument used for channels beyond the module's
instrument list. -/
def defaultInstrument : Instrument :=
  { Name := "Default"
    WaveType := .Square
    Attack := 0.01
    Decay := 0.1
    Sustain := 0.6
    Release := 0.2
    IsFM := false
    FMPreset := "" }

/-- `NewPlayer`: `samplesPerRow = int(60/tempo/4 * sampleRate)`, 8 channels
with 4-voice allocators, channel `i` bound to instrument `i` or the
default. -/
def NewPlayer (module : TrackerModule) (sampleRate : ℚ) : Player :=
  let samplesPerRow := ratTrunc (60 / (module.Tempo : ℚ) / 4 * sampleRate)
  let numChannels := 8
  let maxPolyphony := 4
  let voiceAllocators := (List.range numChannels).map (fun i =>
    NewVoiceAllocator (module.Instruments.getD i defaultInstrument) sampleRate maxPolyphony)
  { module := module
    VoiceAllocators := voiceAllocators
    sampleRate := sampleRate
    currentPos := 0
    currentRow := 0
    sampleCounter := 0
    samplesPerRow := samplesPerRow
    done := false
    maxPolyphony := maxPolyphony }

/-- The per-channel body of `processRow`: for channel `ch` of `pattern` at
`row`, trigger `note ≥ 0` (with default velocity 1 when the volume is 0,
plus every non-negative chord pitch), `AllNotesOff` on `note = -2`, and do
nothing on a rest or an out-of-range channel/row. -/
def processChannel (fpow2 : ℚ → ℚ) (pattern : Pattern) (row : ℕ) (ch : ℕ)
    (va : VoiceAllocator) : Option VoiceAllocator :=
  if hch : ch < pattern.Channels.length then
    let channel := pattern.Channels.get ⟨ch, hch⟩
    if hrow : row < channel.length then
      let note := channel.get ⟨row, hrow⟩
      if note.Note ≥ 0 then
        let velocity := if note.Volume = 0 then 1 else note.Volume
        match va.NoteOn fpow2 note.Note velocity with
        | none => none
        | some va1 =>
            note.Chord.foldlM (fun acc chordNote =>
              if chordNote ≥ 0 then acc.NoteOn fpow2 chordNote velocity else some acc) va1
      else if note.Note = -2 then
        some va.AllNotesOff
      else
        some va
    else some va
  else some va

/-- The channel loop of `processRow` (`ch < len(Channels) && ch < len(allocators)`). -/
def processChannels (fpow2 : ℚ → ℚ) (pattern : Pattern) (row : ℕ) :
    List VoiceAllocator → ℕ → Option (List VoiceAllocator)
  | [], _ => some []
  | va :: rest, ch => do
      let vaNew ← processChannel fpow2 pattern row ch va
      let restNew ← processChannels fpow2 pattern row rest (ch + 1)
      pure (vaNew :: restNew)

/-- `Player.processRow`: triggers the events of the current row; out-of-range
sequence position or pattern index degrade to "do nothing". -/
def Player.processRow (fpow2 : ℚ → ℚ) (p : Player) : Option Player :=
  if hpos : p.currentPos < p.module.Sequence.length then
    let patternIdx := p.module.Sequence.get ⟨p.currentPos, hpos⟩
    if hpat : patternIdx < p.module.Patterns.length then
      let pattern := p.module.Patterns.get ⟨patternIdx, hpat⟩
      match processChannels fpow2 pattern p.currentRow p.VoiceAllocators 0 with
      | none => none
      | some allocs => some { p with VoiceAllocators := allocs }
    else some p
  else some p

/-- The sample-accumulation loop of `Player.Next`: advance every channel
allocator and sum the outputs. -/
def mixAllocators (fsin : ℚ → ℚ) (fpi : ℚ) : List VoiceAllocator → ℚ × List VoiceAllocator
  | [] => (0, [])
  | va :: rest =>
      let (s, vaNew) := VoiceAllocator.Next fsin fpi va
      let (srest, restNew) := mixAllocators fsin fpi rest
      (s + srest, vaNew :: restNew)

/-- The cursor cascade at the end of `Player.Next` (lines 93–114 of
player.go): increment the sample counter, wrap into row/pattern/sequence
advancement, and set `done` at the end of the sequence. -/
def Player.advanceCursor (p : Player) : Player :=
  let sampleCounter := p.sampleCounter + 1
  if (sampleCounter : ℤ) ≥ p.samplesPerRow then
    let p := { p with sampleCounter := 0, currentRow := p.currentRow + 1 }
    if hpos : p.currentPos < p.module.Sequence.length then
      let patternIdx := p.module.Sequence.get ⟨p.currentPos, hpos⟩
      if hpat : patternIdx < p.module.Patterns.length then
        if p.currentRow ≥ (p.module.Patterns.get ⟨patternIdx, hpat⟩).Rows then
          let p := { p with currentRow := 0, currentPos := p.currentPos + 1 }
          if p.currentPos ≥ p.module.Sequence.length then
            { p with done := true }
          else p
        else p
      else p
    else p
  else { p with sampleCounter := sampleCounter }

/-- `Player.Next`: 0 when done; otherwise process the row when the counter
is at 0, mix all channels (divided by the channel count), then advance the
cursor. -/
def Player.Next (fsin : ℚ → ℚ) (fpi : ℚ) (fpow2 : ℚ → ℚ) (p : Player) :
    Option (ℚ × Player) :=
  if p.done then some (0, p)
  else do
    let p ← if p.sampleCounter = 0 then p.processRow fpow2 else some p
    let (s, allocs) := mixAllocators fsin fpi p.VoiceAllocators
    let sample := s / (p.VoiceAllocators.length : ℚ)
    let p := { p with VoiceAllocators := allocs }
    pure (sample, p.advanceCursor)

/-- `Player.IsDone`. -/
def Player.IsDone (p : Player) : Bool :=
  p.done

/-- The state part of `Player.Next`, iterated `n` times (`none` once any
iteration panics). -/
def Player.stepN (fsin : ℚ → ℚ) (fpi : ℚ) (fpow2 : ℚ → ℚ) (p : Player) :
    ℕ → Option Player
  | 0 => some p
  | n + 1 =>
      match Player.Next fsin fpi fpow2 p with
      | none => none
      | some (_, p1) => Player.stepN fsin fpi fpow2 p1 n

/-- The output samples of `n` consecutive `Player.Next` calls (`none` once
any call panics). -/
def Player.render (fsin : ℚ → ℚ) (fpi : ℚ) (fpow2 : ℚ → ℚ) (p : Player) :
    ℕ → Option (List ℚ)
  | 0 => some []
  | n + 1 =>
      match Player.Next fsin fpi fpow2 p with
      | none => none
      | some (s, p1) =>
          match Player.render fsin fpi fpow2 p1 n with
          | none => none
          | some rest => some (s :: rest)

/-! ## Predicates used by the invariant and temporal claims -/

/-- A well-formed voice: an FM voice actually carries an instrument, and
that instrument has at least one operator (true of every voice the
constructors in the repository build). -/
def Voice.wf (v : Voice) : Prop :=
  v.useFM = true → ∃ fm, v.fmInstrument = some fm ∧ fm.operators ≠ []

/-- The voice's underlying engine is in a triggered, not-yet-released
state: every envelope it owns sits in Attack/Decay/Sustain. -/
def Voice.engineLive (v : Voice) : Prop :=
  match v.useFM, v.fmInstrument with
  | true, some fm => ∀ op ∈ fm.operators, op.envelope.stage.isLive = true
  | _, _ => v.envelope.stage.isLive = true

/-- A sounding voice: busy flag set and engine live. -/
def Voice.live (v : Voice) : Prop :=
  v.active = true ∧ v.engineLive

/-- The bookkeeping consistency of a `VoiceAllocator` that `Player.Next`
relies on for panic freedom: no duplicate active notes, the note map's
keys are exactly the active-note list, and the pool has its declared
size. -/
structure VoiceAllocator.Consistent (va : VoiceAllocator) : Prop where
  nodup : va.activeNotes.Nodup
  keys : ∀ n : ℤ, (va.noteMap n).isSome = true ↔ n ∈ va.activeNotes
  len : va.voices.length = va.maxVoices

/-- The full allocator invariant: consistency, plus injectivity of the
note-to-voice map and the guarantee that every mapped voice is a live,
well-formed pool voice. -/
structure VoiceAllocator.Inv (va : VoiceAllocator) : Prop where
  nodup : va.activeNotes.Nodup
  keys : ∀ n : ℤ, (va.noteMap n).isSome = true ↔ n ∈ va.activeNotes
  inj : ∀ n m i, va.noteMap n = some i → va.noteMap m = some i → n = m
  mapped : ∀ n i, va.noteMap n = some i → ∃ v, va.voices.get? i = some v ∧ v.live
  allWf : ∀ v ∈ va.voices, v.wf
  len : va.voices.length = va.maxVoices

/-- The allocation-respecting call surface of `VoiceAllocator` (excluding
the documented bypass methods `SetVoiceNote`/`ReleaseVoice`). -/
inductive AllocOp where
  | noteOn (note : ℤ) (velocity : ℚ)
  | noteOff (note : ℤ)
  | allNotesOff
deriving DecidableEq, Repr

/-- One allocator call (`none` models a Go panic). -/
def AllocOp.apply (fpow2 : ℚ → ℚ) (va : VoiceAllocator) : AllocOp → Option VoiceAllocator
  | .noteOn n vel => va.NoteOn fpow2 n vel
  | .noteOff n => some (va.NoteOff n)
  | .allNotesOff => some va.AllNotesOff

/-- A finite sequence of allocator calls. -/
def applyOps (fpow2 : ℚ → ℚ) (va : VoiceAllocator) : List AllocOp → Option VoiceAllocator
  | [] => some va
  | op :: ops =>
      match AllocOp.apply fpow2 va op with
      | none => none
      | some va1 => applyOps fpow2 va1 ops

/-- `n` consecutive `Voice.Next` calls (state part). -/
def Voice.advanceN (fsin : ℚ → ℚ) (fpi : ℚ) (v : Voice) : ℕ → Voice
  | 0 => v
  | n + 1 => Voice.advanceN fsin fpi ((Voice.Next fsin fpi v).2) n

theorem Envelope.stepN_succ_back (e : Envelope) (n : ℕ) :
    e.stepN (n + 1) = (e.stepN n).step := by
  induction n generalizing e with
  | zero => rfl
  | succ n ih =>
    show (e.step).stepN (n + 1) = _
    rw [ih]
    rfl

theorem Envelope.stepN_add (e : Envelope) (m n : ℕ) :
    e.stepN (m + n) = (e.stepN m).stepN n := by
  induction n with
  | zero => rfl
  | succ n ih =>
    rw [show m + (n + 1) = (m + n) + 1 from rfl, Envelope.stepN_succ_back, ih,
      Envelope.stepN_succ_back]

/-- One `Next` call that completes the attack stage. -/
theorem Envelope.step_attack_exit (e : Envelope) (hst : e.stage = .Attack)
    (h : e.attackSamples = 0 ∨ e.attackSamples ≤ e.sampleCount) :
    e.step = { e with stage := .Decay, level := 1, sampleCount := 0 } := by
  unfold Envelope.step Envelope.Next
  rw [hst]
  rcases h with h | h
  · simp [h]
  · rcases eq_or_ne e.attackSamples 0 with h0 | h0
    · simp [h0]
    · simp [h0, ge_iff_le, h]

/-- One `Next` call inside the attack ramp. -/
theorem Envelope.step_attack_mid (e : Envelope) (hst : e.stage = .Attack)
    (h0 : e.attackSamples ≠ 0) (hlt : e.sampleCount < e.attackSamples) :
    e.step = { e with level := (e.sampleCount : ℚ) / (e.attackSamples : ℚ),
                      sampleCount := e.sampleCount + 1 } := by
  unfold Envelope.step Envelope.Next
  rw [hst]
  simp [h0, ge_iff_le, not_le.mpr hlt]

/-- One `Next` call that completes the decay stage (counter not reset). -/
theorem Envelope.step_decay_exit (e : Envelope) (hst : e.stage = .Decay)
    (h : e.decaySamples = 0 ∨ e.decaySamples ≤ e.sampleCount) :
    e.step = { e with stage := .Sustain, level := e.sustainLevel } := by
  unfold Envelope.step Envelope.Next
  rw [hst]
  rcases h with h | h
  · simp [h]
  · rcases eq_or_ne e.decaySamples 0 with h0 | h0
    · simp [h0]
    · simp [h0, ge_iff_le, h]

/-- One `Next` call inside the decay ramp. -/
theorem Envelope.step_decay_mid (e : Envelope) (hst : e.stage = .Decay)
    (h0 : e.decaySamples ≠ 0) (hlt : e.sampleCount < e.decaySamples) :
    e.step = { e with level := 1 + ((e.sampleCount : ℚ) / (e.decaySamples : ℚ))
                                 * (e.sustainLevel - 1),
                      sampleCount := e.sampleCount + 1 } := by
  unfold Envelope.step Envelope.Next
  rw [hst]
  simp [h0, ge_iff_le, not_le.mpr hlt]

/-- One `Next` call in the sustain stage: level pinned to the sustain level,
stage and counter unchanged. -/
theorem Envelope.step_sustain (e : Envelope) (hst : e.stage = .Sustain) :
    e.step = { e with level := e.sustainLevel } := by
  unfold Envelope.step Envelope.Next
  rw [hst]

/-- One `Next` call that completes the release stage (counter not reset). -/
theorem Envelope.step_release_exit (e : Envelope) (hst : e.stage = .Release)
    (h : e.releaseSamples = 0 ∨ e.releaseSamples ≤ e.sampleCount) :
    e.step = { e with stage := .Off, level := 0 } := by
  unfold Envelope.step Envelope.Next
  rw [hst]
  rcases h with h | h
  · simp [h]
  · rcases eq_or_ne e.releaseSamples 0 with h0 | h0
    · simp [h0]
    · simp [h0, ge_iff_le, h]

/-- One `Next` call inside the release ramp: the ramp is anchored at the
SUSTAIN level (`startLevel := e.sustainLevel` in the source), not at the
level held when `Release` was called. -/
theorem Envelope.step_release_mid (e : Envelope) (hst : e.stage = .Release)
    (h0 : e.releaseSamples ≠ 0) (hlt : e.sampleCount < e.releaseSamples) :
    e.step = { e with level := e.sustainLevel
                                 * (1 - (e.sampleCount : ℚ) / (e.releaseSamples : ℚ)),
                      sampleCount := e.sampleCount + 1 } := by
  unfold Envelope.step Envelope.Next
  rw [hst]
  simp [h0, ge_iff_le, not_le.mpr hlt]

/-- One `Next` call in the `Off` stage: level pinned to 0. -/
theorem Envelope.step_off (e : Envelope) (hst : e.stage = .Off) :
    e.step = { e with level := 0 } := by
  unfold Envelope.step Envelope.Next
  rw [hst]

/-- Running the attack stage to completion: from a counter `c ≥ 0` with
`c + j = attackSamples`, `j + 1` calls reach level 1, stage `Decay`,
counter 0. -/
theorem Envelope.attack_progress :
    ∀ (j : ℕ) (e : Envelope), e.stage = .Attack → 0 ≤ e.sampleCount →
      e.sampleCount + (j : ℤ) = e.attackSamples →
      e.stepN (j + 1) = { e with stage := .Decay, level := 1, sampleCount := 0 } := by
  intro j
  induction j with
  | zero =>
    intro e hst hc hj
    show (e.step).stepN 0 = _
    rw [show ∀ f : Envelope, f.stepN 0 = f from fun _ => rfl,
      Envelope.step_attack_exit e hst (Or.inr (by omega))]
  | succ j ih =>
    intro e hst hc hj
    show (e.step).stepN (j + 1) = _
    rw [Envelope.step_attack_mid e hst (by omega) (by omega)]
    exact ih _ hst (show (0:ℤ) ≤ e.sampleCount + 1 by omega)
      (show (e.sampleCount + 1) + (j : ℤ) = e.attackSamples by omega)

/-- `attackSamples.toNat + 1` calls from the start of the attack stage reach
level exactly 1, stage `Decay`, counter 0. -/
theorem Envelope.attack_done (e : Envelope) (hst : e.stage = .Attack)
    (hc : e.sampleCount = 0) :
    e.stepN (e.attackSamples.toNat + 1) =
      { e with stage := .Decay, level := 1, sampleCount := 0 } := by
  rcases le_or_lt e.attackSamples 0 with hA | hA
  · rw [Int.toNat_of_nonpos hA]
    show (e.step).stepN 0 = _
    rw [show ∀ f : Envelope, f.stepN 0 = f from fun _ => rfl,
      Envelope.step_attack_exit e hst (by omega)]
  · exact Envelope.attack_progress e.attackSamples.toNat e hst (by omega) (by omega)

/-- Running the decay stage to completion: from a counter `c ≥ 0` with
`c + j = decaySamples`, `j + 1` calls reach the sustain level and stage
`Sustain` (the counter is not reset on this transition). -/
theorem Envelope.decay_progress :
    ∀ (j : ℕ) (e : Envelope), e.stage = .Decay → 0 ≤ e.sampleCount →
      e.sampleCount + (j : ℤ) = e.decaySamples →
      e.stepN (j + 1) = { e with stage := .Sustain, level := e.sustainLevel,
                                 sampleCount := e.sampleCount + (j : ℤ) } := by
  intro j
  induction j with
  | zero =>
    intro e hst hc hj
    show (e.step).stepN 0 = _
    rw [show ∀ f : Envelope, f.stepN 0 = f from fun _ => rfl,
      Envelope.step_decay_exit e hst (Or.inr (by omega))]
    simp
  | succ j ih =>
    intro e hst hc hj
    show (e.step).stepN (j + 1) = _
    rw [Envelope.step_decay_mid e hst (by omega) (by omega)]
    have h := ih { e with level := 1 + ((e.sampleCount : ℚ) / (e.decaySamples : ℚ))
                                     * (e.sustainLevel - 1),
                          sampleCount := e.sampleCount + 1 }
      hst (show (0:ℤ) ≤ e.sampleCount + 1 by omega)
      (show (e.sampleCount + 1) + (j : ℤ) = e.decaySamples by omega)
    rw [h]
    simp only []
    congr 1
    omega

/-- `decaySamples.toNat + 1` calls from the start of the decay stage reach
level exactly the sustain level and stage `Sustain`. -/
theorem Envelope.decay_done (e : Envelope) (hst : e.stage = .Decay)
    (hc : e.sampleCount = 0) :
    e.stepN (e.decaySamples.toNat + 1) =
      { e with stage := .Sustain, level := e.sustainLevel,
               sampleCount := (e.decaySamples.toNat : ℤ) } := by
  rcases le_or_lt e.decaySamples 0 with hD | hD
  · rw [Int.toNat_of_nonpos hD]
    show (e.step).stepN 0 = _
    rw [show ∀ f : Envelope, f.stepN 0 = f from fun _ => rfl,
      Envelope.step_decay_exit e hst (by omega)]
    simp [hc]
  · have h := Envelope.decay_progress e.decaySamples.toNat e hst (by omega) (by omega)
    rw [h]
    congr 1
    omega

/-- Running the release stage to completion: from a counter `c ≥ 0` with
`c + j = releaseSamples`, `j + 1` calls reach level 0 and stage `Off`
(the counter is not reset on this transition). -/
theorem Envelope.release_progress :
    ∀ (j : ℕ) (e : Envelope), e.stage = .Release → 0 ≤ e.sampleCount →
      e.sampleCount + (j : ℤ) = e.releaseSamples →
      e.stepN (j + 1) = { e with stage := .Off, level := 0,
                                 sampleCount := e.sampleCount + (j : ℤ) } := by
  intro j
  induction j with
  | zero =>
    intro e hst hc hj
    show (e.step).stepN 0 = _
    rw [show ∀ f : Envelope, f.stepN 0 = f from fun _ => rfl,
      Envelope.step_release_exit e hst (Or.inr (by omega))]
    simp
  | succ j ih =>
    intro e hst hc hj
    show (e.step).stepN (j + 1) = _
    rw [Envelope.step_release_mid e hst (by omega) (by omega)]
    have h := ih { e with level := e.sustainLevel
                                     * (1 - (e.sampleCount : ℚ) / (e.releaseSamples : ℚ)),
                          sampleCount := e.sampleCount + 1 }
      hst (show (0:ℤ) ≤ e.sampleCount + 1 by omega)
      (show (e.sampleCount + 1) + (j : ℤ) = e.releaseSamples by omega)
    rw [h]
    simp only []
    congr 1
    omega

/-- `releaseSamples.toNat + 1` calls from the start of the release stage
reach level 0 and stage `Off`. -/
theorem Envelope.release_done (e : Envelope) (hst : e.stage = .Release)
    (hc : e.sampleCount = 0) :
    e.stepN (e.releaseSamples.toNat + 1) =
      { e with stage := .Off, level := 0,
               sampleCount := (e.releaseSamples.toNat : ℤ) } := by
  rcases le_or_lt e.releaseSamples 0 with hR | hR
  · rw [Int.toNat_of_nonpos hR]
    show (e.step).stepN 0 = _
    rw [show ∀ f : Envelope, f.stepN 0 = f from fun _ => rfl,
      Envelope.step_release_exit e hst (by omega)]
    simp [hc]
  · have h := Envelope.release_progress e.releaseSamples.toNat e hst (by omega) (by omega)
    rw [h]
    congr 1
    omega

/-- A per-sample advance never leaves the attack/decay/sustain region on its
own: only `Release` (or a fresh `Trigger`) changes that. -/
theorem Envelope.step_isLive (e : Envelope) (h : e.stage.isLive = true) :
    (e.step).stage.isLive = true := by
  cases hst : e.stage with
  | Attack =>
    by_cases h0 : e.attackSamples = 0
    · rw [Envelope.step_attack_exit e hst (Or.inl h0)]; rfl
    · by_cases hle : e.attackSamples ≤ e.sampleCount
      · rw [Envelope.step_attack_exit e hst (Or.inr hle)]; rfl
      · rw [Envelope.step_attack_mid e hst h0 (by omega)]
        simpa [EnvelopeStage.isLive] using hst ▸ h
  | Decay =>
    by_cases h0 : e.decaySamples = 0
    · rw [Envelope.step_decay_exit e hst (Or.inl h0)]; rfl
    · by_cases hle : e.decaySamples ≤ e.sampleCount
      · rw [Envelope.step_decay_exit e hst (Or.inr hle)]; rfl
      · rw [Envelope.step_decay_mid e hst h0 (by omega)]
        simpa [EnvelopeStage.isLive] using hst ▸ h
  | Sustain =>
    rw [Envelope.step_sustain e hst]
    simpa [EnvelopeStage.isLive] using hst ▸ h
  | Release => simp [hst, EnvelopeStage.isLive] at h
  | Off => simp [hst, EnvelopeStage.isLive] at h

/-- Live stages are active stages. -/
theorem Envelope.isLive_isActive (e : Envelope) (h : e.stage.isLive = true) :
    e.IsActive = true := by
  cases hst : e.stage <;>
    simp_all [Envelope.IsActive, EnvelopeStage.isLive, hst]

/-! ## List helper lemmas -/

theorem listModify_length {α : Type _} (l : List α) (i : ℕ) (f : α → α) :
    (listModify l i f).length = l.length := by
  induction l generalizing i with
  | nil => rfl
  | cons a as ih =>
    cases i with
    | zero => rfl
    | succ n => simp [listModify, ih]

theorem listModify_get?_self {α : Type _} (l : List α) (i : ℕ) (f : α → α) :
    (listModify l i f).get? i = (l.get? i).map f := by
  induction l generalizing i with
  | nil => simp [listModify]
  | cons a as ih =>
    cases i with
    | zero => rfl
    | succ n => simpa [listModify] using ih n

theorem listModify_get?_ne {α : Type _} (l : List α) (i : ℕ) (f : α → α)
    (j : ℕ) (h : j ≠ i) : (listModify l i f).get? j = l.get? j := by
  induction l generalizing i j with
  | nil => rfl
  | cons a as ih =>
    cases i with
    | zero =>
      cases j with
      | zero => omega
      | succ m => rfl
    | succ n =>
      cases j with
      | zero => rfl
      | succ m => simpa [listModify] using ih n m (by omega)

theorem listModify_mem {α : Type _} (l : List α) (i : ℕ) (f : α → α)
    (x : α) (hx : x ∈ listModify l i f) : x ∈ l ∨ ∃ y ∈ l, x = f y := by
  induction l generalizing i with
  | nil => simp [listModify] at hx
  | cons a as ih =>
    cases i with
    | zero =>
      rcases List.mem_cons.mp hx with h | h
      · exact Or.inr ⟨a, List.mem_cons_self a as, h⟩
      · exact Or.inl (List.mem_cons_of_mem a h)
    | succ n =>
      rcases List.mem_cons.mp hx with h | h
      · exact Or.inl (h ▸ List.mem_cons_self a as)
      · rcases ih n h with h1 | ⟨y, hy, hxy⟩
        · exact Or.inl (List.mem_cons_of_mem a h1)
        · exact Or.inr ⟨y, List.mem_cons_of_mem a hy, hxy⟩

theorem listFindIdx_some {α : Type _} (p : α → Bool) (l : List α) (j : ℕ)
    (h : listFindIdx p l = some j) : ∃ v, l.get? j = some v ∧ p v = true := by
  induction l generalizing j with
  | nil => simp [listFindIdx] at h
  | cons a as ih =>
    by_cases ha : p a
    · simp [listFindIdx, ha] at h
      exact ⟨a, by simp [← h], ha⟩
    · simp [listFindIdx, ha] at h
      rcases h with ⟨m, hm, rfl⟩
      rcases ih m hm with ⟨v, hv, hpv⟩
      exact ⟨v, by simpa using hv, hpv⟩

theorem listFindIdx_none {α : Type _} (p : α → Bool) (l : List α)
    (h : listFindIdx p l = none) : ∀ v ∈ l, p v = false := by
  induction l with
  | nil => simp
  | cons a as ih =>
    by_cases ha : p a
    · simp [listFindIdx, ha] at h
    · simp [listFindIdx, ha] at h
      intro v hv
      rcases List.mem_cons.mp hv with rfl | hmem
      · simpa using ha
      · exact ih h v hmem

/-- A duplicate-free list of notes mapped injectively to voice indices
below `L` cannot be longer than `L`. -/
theorem nodup_mapped_length_le (l : List ℤ) (f : ℤ → ℕ) (L : ℕ)
    (hnd : l.Nodup) (hinj : ∀ x ∈ l, ∀ y ∈ l, f x = f y → x = y)
    (hlt : ∀ x ∈ l, f x < L) : l.length ≤ L := by
  have hmapnd : (l.map f).Nodup := List.Nodup.map_on hinj hnd
  have hsub : (l.map f).toFinset ⊆ Finset.range L := by
    intro x hx
    rcases List.mem_toFinset.mp hx with hx
    rcases List.mem_map.mp hx with ⟨y, hy, rfl⟩
    exact Finset.mem_range.mpr (hlt y hy)
  have := Finset.card_le_card hsub
  rw [List.toFinset_card_of_nodup hmapnd, Finset.card_range] at this
  simpa using this

/-- Sharpened form: if additionally some index `j < L` is avoided by the
mapping, the list is strictly shorter than `L`. -/
theorem nodup_mapped_length_lt (l : List ℤ) (f : ℤ → ℕ) (L : ℕ) (j : ℕ)
    (hnd : l.Nodup) (hinj : ∀ x ∈ l, ∀ y ∈ l, f x = f y → x = y)
    (hlt : ∀ x ∈ l, f x < L) (hne : ∀ x ∈ l, f x ≠ j) (hj : j < L) :
    l.length < L := by
  have hmapnd : (l.map f).Nodup := List.Nodup.map_on hinj hnd
  have hsub : (l.map f).toFinset ⊆ (Finset.range L).erase j := by
    intro x hx
    rcases List.mem_toFinset.mp hx with hx
    rcases List.mem_map.mp hx with ⟨y, hy, rfl⟩
    exact Finset.mem_erase.mpr ⟨hne y hy, Finset.mem_range.mpr (hlt y hy)⟩
  have hc := Finset.card_le_card hsub
  rw [List.toFinset_card_of_nodup hmapnd,
    Finset.card_erase_of_mem (Finset.mem_range.mpr hj), Finset.card_range] at hc
  have : l.length ≤ L - 1 := by simpa using hc
  omega

/-! ## The allocator mix (claim C5 groundwork) -/

/-- The loop of `VoiceAllocator.Next` computes: the sum of the outputs of
exactly the voices active before their call, their count, and the updated
pool (advancing exactly the active voices, in place). -/
theorem mixVoices_spec (fsin : ℚ → ℚ) (fpi : ℚ) (l : List Voice) :
    (mixVoices fsin fpi l).1
        = ((l.filter (fun v => v.IsActive)).map (fun v => (Voice.Next fsin fpi v).1)).sum
      ∧ (mixVoices fsin fpi l).2.1 = (l.filter (fun v => v.IsActive)).length
      ∧ (mixVoices fsin fpi l).2.2.length = l.length := by
  induction l with
  | nil => simp [mixVoices]
  | cons v vs ih =>
    rcases hmv : mixVoices fsin fpi vs with ⟨s, c, vsNew⟩
    rw [hmv] at ih
    dsimp only at ih
    by_cases hv : v.IsActive
    · have hfil : List.filter (fun v => v.IsActive) (v :: vs)
          = v :: List.filter (fun v => v.IsActive) vs := by
        simp [List.filter_cons, hv]
      simp only [mixVoices, hmv, hv, if_true, hfil, List.map_cons, List.sum_cons,
        List.length_cons]
      exact ⟨by rw [ih.1], by rw [ih.2.1], by simp [ih.2.2]⟩
    · have hv' : v.IsActive = false := by simpa using hv
      have hfil : List.filter (fun v => v.IsActive) (v :: vs)
          = List.filter (fun v => v.IsActive) vs := by
        simp [List.filter_cons, hv']
      simp only [mixVoices, hmv, hv', if_false, hfil, List.length_cons]
      exact ⟨ih.1, ih.2.1, by simp [ih.2.2]⟩

/-- C5: the per-sample mix of a `VoiceAllocator` equals the sum of the
outputs of exactly those voices whose `IsActive` is true, divided by the
number of such voices; with no active voice the result is exactly 0 (the
guarded branch structure of the source — division happens only under
`activeCount > 0` — is mirrored by the `if`, so no division by zero
occurs). -/
theorem C5_mix_is_average_of_active_voices (fsin : ℚ → ℚ) (fpi : ℚ)
    (va : VoiceAllocator) :
    (VoiceAllocator.Next fsin fpi va).1 =
      if (va.voices.filter (fun v => v.IsActive)).length = 0 then 0
      else ((va.voices.filter (fun v => v.IsActive)).map
              (fun v => (Voice.Next fsin fpi v).1)).sum
             / ((va.voices.filter (fun v => v.IsActive)).length : ℚ) := by
  rcases hmv : mixVoices fsin fpi va.voices with ⟨s, c, vsNew⟩
  have hs := mixVoices_spec fsin fpi va.voices
  rw [hmv] at hs
  dsimp only at hs
  simp only [VoiceAllocator.Next, hmv]
  rcases Nat.eq_zero_or_pos c with hc | hc
  · rw [if_neg (by omega), if_pos (by omega)]
    have : (va.voices.filter (fun v => v.IsActive)) = [] := by
      have := hs.2.1
      rw [hc] at this
      exact (List.length_eq_zero.mp this.symm)
    rw [hs.1, this]
    simp
  · rw [if_pos hc, if_neg (by omega)]
    rw [hs.1, hs.2.1]

/-! ## Claims C2 and C3: envelope stage timing and release anchoring -/

/-- C2 (counterexample): for the envelope with attack 0.2s, decay 0.1s,
sustain 1/2, release 0.1s at sample rate 10 — so `attackSamples = 2` —
the level after `Trigger` followed by exactly `attackSamples` advances is
1/2, not 1.0.  Each stage boundary is reached only on the
`samples + 1`-st call. -/
theorem C2_claim_counterexample :
    (NewEnvelope 0.2 0.1 0.5 0.1 10).attackSamples = 2 ∧
    (((NewEnvelope 0.2 0.1 0.5 0.1 10).Trigger).stepN 2).level = 1/2 ∧
    ¬ (((NewEnvelope 0.2 0.1 0.5 0.1 10).Trigger).stepN 2).level = 1 :=
  of_decide_eq_true (by with_unfolding_all rfl)

/-- C2 (amended): for every envelope, the level is exactly 1.0 after
`Trigger` followed by `attackSamples + 1` advances; exactly the sustain
level after `decaySamples + 1` further advances; and after `Release`
followed by `releaseSamples + 1` advances the level is exactly 0.0 with
`IsActive = false`.  `Release` in the `Off` state remains a no-op. -/
theorem C2_amended_envelope_stage_counts (e : Envelope) :
    ((e.Trigger).stepN (e.attackSamples.toNat + 1)).level = 1
  ∧ ((((e.Trigger).stepN (e.attackSamples.toNat + 1)).stepN
        (e.decaySamples.toNat + 1)).level = e.sustainLevel)
  ∧ (((((e.Trigger).stepN (e.attackSamples.toNat + 1)).stepN
        (e.decaySamples.toNat + 1)).Release).stepN (e.releaseSamples.toNat + 1)).level = 0
  ∧ (((((e.Trigger).stepN (e.attackSamples.toNat + 1)).stepN
        (e.decaySamples.toNat + 1)).Release).stepN
          (e.releaseSamples.toNat + 1)).IsActive = false
  ∧ (e.stage = .Off → e.Release = e) := by
  have h1 : (e.Trigger).stepN (e.attackSamples.toNat + 1)
      = { attackTime := e.attackTime, decayTime := e.decayTime,
          sustainLevel := e.sustainLevel, releaseTime := e.releaseTime,
          stage := .Decay, level := 1, sampleRate := e.sampleRate,
          sampleCount := 0 } :=
    Envelope.attack_done e.Trigger rfl rfl
  have h2 : ({ attackTime := e.attackTime, decayTime := e.decayTime,
               sustainLevel := e.sustainLevel, releaseTime := e.releaseTime,
               stage := .Decay, level := 1, sampleRate := e.sampleRate,
               sampleCount := 0 } : Envelope).stepN (e.decaySamples.toNat + 1)
      = { attackTime := e.attackTime, decayTime := e.decayTime,
          sustainLevel := e.sustainLevel, releaseTime := e.releaseTime,
          stage := .Sustain, level := e.sustainLevel, sampleRate := e.sampleRate,
          sampleCount := (e.decaySamples.toNat : ℤ) } :=
    Envelope.decay_done _ rfl rfl
  have h3 : ({ attackTime := e.attackTime, decayTime := e.decayTime,
               sustainLevel := e.sustainLevel, releaseTime := e.releaseTime,
               stage := .Sustain, level := e.sustainLevel, sampleRate := e.sampleRate,
               sampleCount := (e.decaySamples.toNat : ℤ) } : Envelope).Release
      = { attackTime := e.attackTime, decayTime := e.decayTime,
          sustainLevel := e.sustainLevel, releaseTime := e.releaseTime,
          stage := .Release, level := e.sustainLevel, sampleRate := e.sampleRate,
          sampleCount := 0 } := rfl
  have h4 : ({ attackTime := e.attackTime, decayTime := e.decayTime,
               sustainLevel := e.sustainLevel, releaseTime := e.releaseTime,
               stage := .Release, level := e.sustainLevel, sampleRate := e.sampleRate,
               sampleCount := 0 } : Envelope).stepN (e.releaseSamples.toNat + 1)
      = { attackTime := e.attackTime, decayTime := e.decayTime,
          sustainLevel := e.sustainLevel, releaseTime := e.releaseTime,
          stage := .Off, level := 0, sampleRate := e.sampleRate,
          sampleCount := (e.releaseSamples.toNat : ℤ) } :=
    Envelope.release_done _ rfl rfl
  refine ⟨?_, ?_, ?_, ?_, ?_⟩
  · rw [h1]
  · rw [h1, h2]
  · rw [h1, h2, h3, h4]
  · rw [h1, h2, h3, h4]
    rfl
  · intro h
    simp [Envelope.Release, h]

/-- Witness for C2 (amended) at the concrete envelope 0.2/0.1/0.5/0.1,
rate 10. -/
theorem C2_amended_envelope_stage_counts_witness :
    (((NewEnvelope 0.2 0.1 0.5 0.1 10).Trigger).stepN
        ((NewEnvelope 0.2 0.1 0.5 0.1 10).attackSamples.toNat + 1)).level = 1
  ∧ (((((NewEnvelope 0.2 0.1 0.5 0.1 10).Trigger).stepN
        ((NewEnvelope 0.2 0.1 0.5 0.1 10).attackSamples.toNat + 1)).stepN
        ((NewEnvelope 0.2 0.1 0.5 0.1 10).decaySamples.toNat + 1)).level
      = (NewEnvelope 0.2 0.1 0.5 0.1 10).sustainLevel)
  ∧ ((((((NewEnvelope 0.2 0.1 0.5 0.1 10).Trigger).stepN
        ((NewEnvelope 0.2 0.1 0.5 0.1 10).attackSamples.toNat + 1)).stepN
        ((NewEnvelope 0.2 0.1 0.5 0.1 10).decaySamples.toNat + 1)).Release).stepN
          ((NewEnvelope 0.2 0.1 0.5 0.1 10).releaseSamples.toNat + 1)).level = 0
  ∧ ((((((NewEnvelope 0.2 0.1 0.5 0.1 10).Trigger).stepN
        ((NewEnvelope 0.2 0.1 0.5 0.1 10).attackSamples.toNat + 1)).stepN
        ((NewEnvelope 0.2 0.1 0.5 0.1 10).decaySamples.toNat + 1)).Release).stepN
          ((NewEnvelope 0.2 0.1 0.5 0.1 10).releaseSamples.toNat + 1)).IsActive = false
  ∧ ((NewEnvelope 0.2 0.1 0.5 0.1 10).stage = .Off →
      (NewEnvelope 0.2 0.1 0.5 0.1 10).Release = NewEnvelope 0.2 0.1 0.5 0.1 10) :=
  C2_amended_envelope_stage_counts (NewEnvelope 0.2 0.1 0.5 0.1 10)

/-- C3 (counterexample): for the envelope with attack 1s, sustain 1/2 at
rate 10, releasing after only 2 attack advances (level 1/10): the first
sample after `Release` is 1/2 — exactly the sustain level — which JUMPS
ABOVE the release-time level 1/10, so the release stage does not ramp down
from the level present at the moment of release. -/
theorem C3_claim_counterexample :
    (((NewEnvelope 1 1 0.5 1 10).Trigger).stepN 2).level = 1/10 ∧
    (((((NewEnvelope 1 1 0.5 1 10).Trigger).stepN 2).Release).step).level = 1/2 ∧
    (((((NewEnvelope 1 1 0.5 1 10).Trigger).stepN 2).Release).step).level
      = (NewEnvelope 1 1 0.5 1 10).sustainLevel ∧
    (1/10 : ℚ) < (((((NewEnvelope 1 1 0.5 1 10).Trigger).stepN 2).Release).step).level :=
  of_decide_eq_true (by with_unfolding_all rfl)

/-- C3 (amended): the release stage ramps linearly from the SUSTAIN level
down to 0 (`level = sustainLevel * (1 - count/releaseSamples)`), regardless
of the level at the moment of release; when release is called during
Attack or Decay, the first release sample is therefore derived from the
sustain level, not from the current level. -/
theorem C3_amended_release_ramps_from_sustain_level (e : Envelope)
    (hst : e.stage = .Release) :
    (e.step).level =
      if e.releaseSamples = 0 ∨ e.releaseSamples ≤ e.sampleCount then 0
      else e.sustainLevel * (1 - (e.sampleCount : ℚ) / (e.releaseSamples : ℚ)) := by
  by_cases h : e.releaseSamples = 0 ∨ e.releaseSamples ≤ e.sampleCount
  · rw [if_pos h, Envelope.step_release_exit e hst h]
  · push_neg at h
    rw [if_neg (by push_neg; exact ⟨h.1, h.2⟩), Envelope.step_release_mid e hst h.1 (by omega)]

/-- Witness for C3 (amended) at a concrete envelope released mid-attack. -/
theorem C3_amended_release_ramps_witness :
    ((((NewEnvelope 1 1 0.5 1 10).Trigger).stepN 2).Release).stage
        = EnvelopeStage.Release
  ∧ (((((NewEnvelope 1 1 0.5 1 10).Trigger).stepN 2).Release).step).level =
      if ((((NewEnvelope 1 1 0.5 1 10).Trigger).stepN 2).Release).releaseSamples = 0
         ∨ ((((NewEnvelope 1 1 0.5 1 10).Trigger).stepN 2).Release).releaseSamples
             ≤ ((((NewEnvelope 1 1 0.5 1 10).Trigger).stepN 2).Release).sampleCount
      then 0
      else ((((NewEnvelope 1 1 0.5 1 10).Trigger).stepN 2).Release).sustainLevel
             * (1 - (((((NewEnvelope 1 1 0.5 1 10).Trigger).stepN 2).Release).sampleCount : ℚ)
                      / (((((NewEnvelope 1 1 0.5 1 10).Trigger).stepN 2).Release).releaseSamples : ℚ)) :=
  ⟨of_decide_eq_true (by with_unfolding_all rfl),
   C3_amended_release_ramps_from_sustain_level _
     (of_decide_eq_true (by with_unfolding_all rfl))⟩

/-! ## Claim C8: equal-tempered note-to-frequency conversion -/

/-- C8: `NoteToFrequency` satisfies the octave-doubling identity
`frequency(n+12) = 2 * frequency(n)` for every note index, and
`frequency(57) = 440` exactly (the fixed formula `440·2^((n-57)/12)`). -/
theorem C8_note_frequency_octaves_and_reference :
    (∀ n : ℤ, NoteToFrequency (n + 12) = 2 * NoteToFrequency n) ∧
    NoteToFrequency 57 = 440 := by
  constructor
  · intro n
    unfold NoteToFrequency
    have h : (((n + 12 : ℤ) : ℝ) - 57) / 12 = ((n : ℝ) - 57) / 12 + 1 := by
      push_cast
      ring
    rw [h, Real.rpow_add (by norm_num), Real.rpow_one]
    ring
  · unfold NoteToFrequency
    norm_num

/-! ## Claim C4: voice stealing at pool size 4 -/

/-- C4: on a fresh 4-voice allocator, five `NoteOn` calls with the five
distinct notes 60, 62, 64, 65, 67 (no `NoteOff`, no per-sample advance)
leave exactly 4 active notes; the first note 60 is stolen — its map entry
is gone and its pool voice (index 0) is reused for the fifth note — and
the remaining four notes appear oldest-first. -/
theorem C4_five_notes_steal_oldest (fpow2 : ℚ → ℚ) :
    ∃ va : VoiceAllocator,
      (Option.bind ((NewVoiceAllocator defaultInstrument 44100 4).NoteOn fpow2 60 1)
        (fun a => Option.bind (a.NoteOn fpow2 62 1)
          (fun a => Option.bind (a.NoteOn fpow2 64 1)
            (fun a => Option.bind (a.NoteOn fpow2 65 1)
              (fun a => a.NoteOn fpow2 67 1))))) = some va
    ∧ va.activeNotes = [62, 64, 65, 67]
    ∧ va.activeNotes.length = 4
    ∧ va.noteMap 60 = none
    ∧ va.noteMap 67 = some 0
    ∧ va.noteMap 62 = some 1
    ∧ va.noteMap 64 = some 2
    ∧ va.noteMap 65 = some 3 := by
  refine ⟨_, rfl, ?_, ?_, ?_, ?_, ?_, ?_, ?_⟩ <;> with_unfolding_all rfl

/-! ## Voice-level lemmas -/

theorem Voice.noteOn_active (fpow2 : ℚ → ℚ) (v : Voice) (note : ℤ) (vol : ℚ) :
    (Voice.NoteOn fpow2 v note vol).active = true := by
  cases hu : v.useFM <;> cases hf : v.fmInstrument <;>
    simp [Voice.NoteOn, hu, hf]

theorem Voice.noteOn_live (fpow2 : ℚ → ℚ) (v : Voice) (note : ℤ) (vol : ℚ) :
    (Voice.NoteOn fpow2 v note vol).live := by
  cases hu : v.useFM <;> cases hf : v.fmInstrument <;>
    simp [Voice.NoteOn, hu, hf, Voice.live, Voice.engineLive, FMInstrument.NoteOn,
      FMOperator.Trigger, Envelope.Trigger, EnvelopeStage.isLive]

theorem Voice.noteOn_useFM (fpow2 : ℚ → ℚ) (v : Voice) (note : ℤ) (vol : ℚ) :
    (Voice.NoteOn fpow2 v note vol).useFM = v.useFM := by
  cases hu : v.useFM <;> cases hf : v.fmInstrument <;> simp [Voice.NoteOn, hu, hf]

theorem Voice.noteOff_useFM (v : Voice) : (Voice.NoteOff v).useFM = v.useFM := by
  cases hu : v.useFM <;> cases hf : v.fmInstrument <;> simp [Voice.NoteOff, hu, hf]

theorem Voice.noteOn_wf (fpow2 : ℚ → ℚ) (v : Voice) (note : ℤ) (vol : ℚ)
    (hwf : v.wf) : (Voice.NoteOn fpow2 v note vol).wf := by
  intro h
  rw [Voice.noteOn_useFM] at h
  rcases hwf h with ⟨fm, hfm, hops⟩
  refine ⟨fm.NoteOn fpow2 note vol, ?_, ?_⟩
  · simp [Voice.NoteOn, h, hfm]
  · simp [FMInstrument.NoteOn]
    intro hc
    exact hops (by simpa using congrArg List.length hc)

theorem Voice.noteOff_wf (v : Voice) (hwf : v.wf) : (Voice.NoteOff v).wf := by
  intro h
  rw [Voice.noteOff_useFM] at h
  rcases hwf h with ⟨fm, hfm, hops⟩
  refine ⟨fm.NoteOff, ?_, ?_⟩
  · simp [Voice.NoteOff, h, hfm]
  · simp [FMInstrument.NoteOff]
    intro hc
    exact hops (by simpa using congrArg List.length hc)

theorem Voice.live_IsActive (v : Voice) (h : v.live) : v.IsActive = true := by
  rcases h with ⟨ha, _⟩
  cases hu : v.useFM <;> cases hf : v.fmInstrument <;>
    simp [Voice.IsActive, hu, hf, ha]

theorem Voice.IsActive_false_not_live (v : Voice) (h : v.IsActive = false) :
    ¬ v.live := by
  intro hl
  rw [Voice.live_IsActive v hl] at h
  cases h

/-! ## Allocator bookkeeping: consistency preservation -/

theorem cons_noteOn (fpow2 : ℚ → ℚ) (va : VoiceAllocator) (note : ℤ) (vel : ℚ)
    (h : va.Consistent) (hpool : 0 < va.maxVoices) :
    ∃ vb, va.NoteOn fpow2 note vel = some vb
      ∧ vb.Consistent ∧ vb.maxVoices = va.maxVoices ∧ vb.sampleRate = va.sampleRate := by
  rcases h with ⟨hnd, hkeys, hlen⟩
  rcases hm : va.noteMap note with _ | i
  · -- note not yet mapped
    have hnotmem : note ∉ va.activeNotes := by
      intro hmem
      have := (hkeys note).mpr hmem
      rw [hm] at this
      cases this
    rcases hf : listFindIdx (fun v => !v.IsActive) va.voices with _ | j
    · -- no inactive pool voice: steal or fallback
      rcases hl : va.activeNotes with _ | ⟨oldest, rest⟩
      · -- empty active list: fallback to pool slot 0
        have hvne : va.voices ≠ [] := by
          intro h0
          rw [h0] at hlen
          simp at hlen
          omega
        have heq : va.NoteOn fpow2 note vel
            = some { va with
                voices := listModify va.voices 0 (fun v => v.NoteOn fpow2 note vel)
                noteMap := fun n => if n = note then some 0 else va.noteMap n
                activeNotes := va.activeNotes ++ [note] } := by
          unfold VoiceAllocator.NoteOn
          rcases hv : va.voices with _ | ⟨v0, vs⟩
          · exact absurd hv hvne
          · rw [hv] at hf
            simp only [hm, hf, hl]
        refine ⟨_, heq, ⟨?_, ?_, ?_⟩, rfl, rfl⟩
        · rw [hl]
          simp
        · intro n
          by_cases hn : n = note
          · subst hn
            simp
          · simp only [if_neg hn]
            rw [List.mem_append]
            simp [hn, hkeys n]
        · rw [listModify_length]
          exact hlen
      · -- steal the oldest note's voice
        have hoisSome : (va.noteMap oldest).isSome = true :=
          (hkeys oldest).mpr (by rw [hl]; exact List.mem_cons_self _ _)
        rcases ho : va.noteMap oldest with _ | i0
        · rw [ho] at hoisSome
          cases hoisSome
        have hnd' : oldest ∉ rest ∧ rest.Nodup := by
          have := hl ▸ hnd
          exact ⟨(List.nodup_cons.mp this).1, (List.nodup_cons.mp this).2⟩
        have hnotrest : note ∉ rest := by
          intro hmem
          exact hnotmem (by rw [hl]; exact List.mem_cons_of_mem _ hmem)
        have hneq : note ≠ oldest := by
          intro hcon
          exact hnotmem (by rw [hl, hcon]; exact List.mem_cons_self _ _)
        have heq : va.NoteOn fpow2 note vel
            = some { va with
                voices := listModify va.voices i0 (fun v => v.NoteOn fpow2 note vel)
                noteMap := fun n =>
                  if n = note then some i0
                  else if n = oldest then none
                  else va.noteMap n
                activeNotes := rest ++ [note] } := by
          unfold VoiceAllocator.NoteOn
          simp only [hm, hf, hl, ho]
        refine ⟨_, heq, ⟨?_, ?_, ?_⟩, rfl, rfl⟩
        · simp [List.nodup_append, hnd'.2, hnotrest]
        · intro n
          by_cases hn : n = note
          · subst hn
            simp
          · simp only [if_neg hn]
            by_cases hno : n = oldest
            · subst hno
              simp only [if_pos rfl]
              constructor
              · intro hc
                cases hc
              · intro hc
                rcases List.mem_append.mp hc with hc | hc
                · exact absurd hc hnd'.1
                · simp at hc
                  exact absurd hc hn
            · simp only [if_neg hno]
              rw [List.mem_append]
              have := hkeys n
              rw [hl] at this
              simp [hn, hno] at this ⊢
              exact this
        · rw [listModify_length]
          exact hlen
    · -- found an inactive voice at index j
      have heq : va.NoteOn fpow2 note vel
          = some { va with
              voices := listModify va.voices j (fun v => v.NoteOn fpow2 note vel)
              noteMap := fun n => if n = note then some j else va.noteMap n
              activeNotes := va.activeNotes ++ [note] } := by
        unfold VoiceAllocator.NoteOn
        rw [hm, hf]
      refine ⟨_, heq, ⟨?_, ?_, ?_⟩, rfl, rfl⟩
      · simp [List.nodup_append, hnd, hnotmem]
      · intro n
        by_cases hn : n = note
        · subst hn
          simp
        · simp only [if_neg hn]
          rw [List.mem_append]
          simp [hn, hkeys n]
      · rw [listModify_length]
        exact hlen
  · -- retrigger of an already-mapped note
    have heq : va.NoteOn fpow2 note vel
        = some { va with
            voices := listModify va.voices i (fun v => v.NoteOn fpow2 note vel) } := by
      unfold VoiceAllocator.NoteOn
      rw [hm]
    refine ⟨_, heq, ⟨hnd, hkeys, ?_⟩, rfl, rfl⟩
    rw [listModify_length]
    exact hlen

theorem cons_noteOff (va : VoiceAllocator) (note : ℤ) (h : va.Consistent) :
    (va.NoteOff note).Consistent
      ∧ (va.NoteOff note).maxVoices = va.maxVoices
      ∧ (va.NoteOff note).sampleRate = va.sampleRate := by
  rcases h with ⟨hnd, hkeys, hlen⟩
  rcases hm : va.noteMap note with _ | i
  · have heq : va.NoteOff note = va := by
      unfold VoiceAllocator.NoteOff
      rw [hm]
    rw [heq]
    exact ⟨⟨hnd, hkeys, hlen⟩, rfl, rfl⟩
  · have heq : va.NoteOff note
        = { va with
            voices := listModify va.voices i Voice.NoteOff
            noteMap := fun n => if n = note then none else va.noteMap n
            activeNotes := va.activeNotes.erase note } := by
      unfold VoiceAllocator.NoteOff
      rw [hm]
    rw [heq]
    refine ⟨⟨hnd.erase note, ?_, ?_⟩, rfl, rfl⟩
    · intro n
      by_cases hn : n = note
      · subst hn
        simp only [if_pos rfl]
        constructor
        · intro hc
          cases hc
        · intro hc
          exact absurd ((hnd.mem_erase_iff.mp hc).1) (by simp)
      · simp only [if_neg hn]
        rw [hnd.mem_erase_iff]
        simp [hn, hkeys n]
    · rw [listModify_length]
      exact hlen

theorem cons_allNotesOff (va : VoiceAllocator) (h : va.Consistent) :
    va.AllNotesOff.Consistent
      ∧ va.AllNotesOff.maxVoices = va.maxVoices
      ∧ va.AllNotesOff.sampleRate = va.sampleRate := by
  rcases h with ⟨_, _, hlen⟩
  refine ⟨⟨List.nodup_nil, ?_, ?_⟩, rfl, rfl⟩
  · intro n
    simp [VoiceAllocator.AllNotesOff]
  · simp [VoiceAllocator.AllNotesOff, hlen]

theorem cons_next (fsin : ℚ → ℚ) (fpi : ℚ) (va : VoiceAllocator)
    (h : va.Consistent) :
    (VoiceAllocator.Next fsin fpi va).2.Consistent
      ∧ (VoiceAllocator.Next fsin fpi va).2.maxVoices = va.maxVoices
      ∧ (VoiceAllocator.Next fsin fpi va).2.sampleRate = va.sampleRate := by
  rcases h with ⟨hnd, hkeys, hlen⟩
  rcases hmv : mixVoices fsin fpi va.voices with ⟨s, c, vsNew⟩
  have hspec := mixVoices_spec fsin fpi va.voices
  rw [hmv] at hspec
  dsimp only at hspec
  have heq : (VoiceAllocator.Next fsin fpi va).2 = { va with voices := vsNew } := by
    unfold VoiceAllocator.Next
    rw [hmv]
  rw [heq]
  exact ⟨⟨hnd, hkeys, by rw [hspec.2.2]; exact hlen⟩, rfl, rfl⟩

theorem cons_new (instrument : Instrument) (sampleRate : ℚ) (maxVoices : ℕ) :
    (NewVoiceAllocator instrument sampleRate maxVoices).Consistent := by
  refine ⟨List.nodup_nil, ?_, ?_⟩
  · intro n
    simp [NewVoiceAllocator]
  · simp [NewVoiceAllocator]

/-! ## Well-formedness of constructed voices -/

theorem setOperatorRatio_length (fm : FMInstrument) (i : ℕ) (r : ℚ) :
    (fm.SetOperatorRatio i r).operators.length = fm.operators.length := by
  unfold FMInstrument.SetOperatorRatio
  split <;> simp [listModify_length]

theorem setOperatorEnvelope_length (fm : FMInstrument) (i : ℕ) (a d s r : ℚ) :
    (fm.SetOperatorEnvelope i a d s r).operators.length = fm.operators.length := by
  unfold FMInstrument.SetOperatorEnvelope
  split <;> simp [listModify_length]

theorem setOperatorLevel_length (fm : FMInstrument) (i : ℕ) (l : ℚ) :
    (fm.SetOperatorLevel i l).operators.length = fm.operators.length := by
  unfold FMInstrument.SetOperatorLevel
  split <;> simp [listModify_length]

theorem setModulationIndex_length (fm : FMInstrument) (m : ℚ) :
    (fm.SetModulationIndex m).operators.length = fm.operators.length := rfl

/-- Every FM preset carries at least one operator. -/
theorem fmPresetFor_ops_pos (preset : String) (rate : ℚ) :
    0 < (fmPresetFor preset rate).operators.length := by
  unfold fmPresetFor
  split_ifs <;>
    simp [NewPianoFMInstrument, NewElectricPianoFMInstrument, NewFMBassFMInstrument,
      NewFMLeadFMInstrument, NewFMBrassFMInstrument, NewFMBellFMInstrument,
      NewFMArpFMInstrument, NewFMInstrument, setOperatorRatio_length,
      setOperatorEnvelope_length, setOperatorLevel_length, setModulationIndex_length]

/-- Every pool voice built by `NewVoiceAllocator` is well-formed. -/
theorem allocatorVoice_wf (inst : Instrument) (rate : ℚ) :
    (allocatorVoice inst rate).wf := by
  unfold allocatorVoice
  split
  · intro _
    refine ⟨fmPresetFor inst.FMPreset rate, rfl, ?_⟩
    intro hc
    have := fmPresetFor_ops_pos inst.FMPreset rate
    rw [hc] at this
    simp at this
  · intro h
    simp [NewVoice, Voice.SetInstrument] at h

/-- A fresh allocator satisfies the full invariant. -/
theorem inv_new (inst : Instrument) (rate : ℚ) (k : ℕ) :
    (NewVoiceAllocator inst rate k).Inv := by
  refine ⟨List.nodup_nil, ?_, ?_, ?_, ?_, ?_⟩
  · intro n
    simp [NewVoiceAllocator]
  · intro n m i h1 h2
    simp [NewVoiceAllocator] at h1
  · intro n i h1
    simp [NewVoiceAllocator] at h1
  · intro v hv
    rw [NewVoiceAllocator] at hv
    rcases List.eq_of_mem_replicate hv with rfl
    exact allocatorVoice_wf inst rate
  · simp [NewVoiceAllocator]

/-! ## Full invariant preservation (claim C9 groundwork) -/

theorem inv_noteOn (fpow2 : ℚ → ℚ) (va : VoiceAllocator) (note : ℤ) (vel : ℚ)
    (h : va.Inv) (hpool : 0 < va.maxVoices) :
    ∃ vb, va.NoteOn fpow2 note vel = some vb ∧ vb.Inv
      ∧ vb.maxVoices = va.maxVoices := by
  obtain ⟨hnd, hkeys, hinj, hmapped, hwf, hlen⟩ := h
  have hwfMod : ∀ (t : ℕ),
      ∀ v ∈ listModify va.voices t (fun v => v.NoteOn fpow2 note vel), v.wf := by
    intro t v hv
    rcases listModify_mem _ _ _ _ hv with hv | ⟨y, hy, rfl⟩
    · exact hwf v hv
    · exact Voice.noteOn_wf fpow2 y note vel (hwf y hy)
  rcases hm : va.noteMap note with _ | i
  · -- note not yet mapped
    have hnotmem : note ∉ va.activeNotes := by
      intro hmem
      have := (hkeys note).mpr hmem
      rw [hm] at this
      cases this
    rcases hf : listFindIdx (fun v => !v.IsActive) va.voices with _ | j
    · -- no inactive pool voice
      rcases hl : va.activeNotes with _ | ⟨oldest, rest⟩
      · -- empty active list: fallback to pool slot 0
        have hempty : ∀ n, va.noteMap n = none := by
          intro n
          rcases hme : va.noteMap n with _ | i1
          · rfl
          · have := (hkeys n).mp (by rw [hme]; rfl)
            rw [hl] at this
            cases this
        have hvne : va.voices ≠ [] := by
          intro h0
          rw [h0] at hlen
          simp at hlen
          omega
        rcases hv : va.voices with _ | ⟨v0, vs⟩
        · exact absurd hv hvne
        have heq : va.NoteOn fpow2 note vel
            = some { va with
                voices := listModify (v0 :: vs) 0 (fun v => v.NoteOn fpow2 note vel)
                noteMap := fun n => if n = note then some 0 else va.noteMap n
                activeNotes := va.activeNotes ++ [note] } := by
          unfold VoiceAllocator.NoteOn
          rw [hv] at hf
          simp only [hm, hf, hl, hv]
        refine ⟨_, heq, ⟨?_, ?_, ?_, ?_, ?_, ?_⟩, rfl⟩
        · rw [hl]
          simp
        · intro n
          by_cases hn : n = note
          · subst hn
            simp
          · simp only [if_neg hn]
            rw [List.mem_append]
            simp [hn, hkeys n]
        · intro n m i1 h1 h2
          by_cases hn : n = note <;> by_cases hm2 : m = note <;>
            simp only [if_pos, if_neg, hn, hm2] at h1 h2
          · rw [hn, hm2]
          · rw [hempty m] at h2
            cases h2
          · rw [hempty n] at h1
            cases h1
          · rw [hempty n] at h1
            cases h1
        · intro n i1 h1
          by_cases hn : n = note
          · subst hn
            simp only [if_pos rfl] at h1
            cases h1
            refine ⟨(v0.NoteOn fpow2 n vel), ?_, Voice.noteOn_live fpow2 v0 n vel⟩
            rw [listModify_get?_self]
            rfl
          · simp only [if_neg hn] at h1
            rw [hempty n] at h1
            cases h1
        · rw [hv] at hwfMod
          exact hwfMod 0
        · rw [listModify_length]
          rw [hv] at hlen
          exact hlen
      · -- steal the oldest note's voice (index i0)
        have hoisSome : (va.noteMap oldest).isSome = true :=
          (hkeys oldest).mpr (by rw [hl]; exact List.mem_cons_self _ _)
        rcases ho : va.noteMap oldest with _ | i0
        · rw [ho] at hoisSome
          cases hoisSome
        obtain ⟨vold, hgold, hliveold⟩ := hmapped oldest i0 ho
        have hnd' : oldest ∉ rest ∧ rest.Nodup := by
          have := hl ▸ hnd
          exact ⟨(List.nodup_cons.mp this).1, (List.nodup_cons.mp this).2⟩
        have hnotrest : note ∉ rest := by
          intro hmem
          exact hnotmem (by rw [hl]; exact List.mem_cons_of_mem _ hmem)
        have hneq : note ≠ oldest := by
          intro hcon
          exact hnotmem (by rw [hl, hcon]; exact List.mem_cons_self _ _)
        have heq : va.NoteOn fpow2 note vel
            = some { va with
                voices := listModify va.voices i0 (fun v => v.NoteOn fpow2 note vel)
                noteMap := fun n =>
                  if n = note then some i0
                  else if n = oldest then none
                  else va.noteMap n
                activeNotes := rest ++ [note] } := by
          unfold VoiceAllocator.NoteOn
          simp only [hm, hf, hl, ho]
        refine ⟨_, heq, ⟨?_, ?_, ?_, ?_, ?_, ?_⟩, rfl⟩
        · simp [List.nodup_append, hnd'.2, hnotrest]
        · intro n
          by_cases hn : n = note
          · subst hn
            simp
          · simp only [if_neg hn]
            by_cases hno : n = oldest
            · subst hno
              simp only [if_pos rfl]
              constructor
              · intro hc
                cases hc
              · intro hc
                rcases List.mem_append.mp hc with hc | hc
                · exact absurd hc hnd'.1
                · simp at hc
                  exact absurd hc hn
            · simp only [if_neg hno]
              rw [List.mem_append]
              have := hkeys n
              rw [hl] at this
              simp [hn, hno] at this ⊢
              exact this
        · intro n m i1 h1 h2
          by_cases hn : n = note <;> by_cases hm2 : m = note
          · rw [hn, hm2]
          · exfalso
            simp only [if_pos, if_neg, hn, hm2] at h1 h2
            cases h1
            by_cases hmo : m = oldest
            · simp only [if_pos hmo] at h2
              cases h2
            · simp only [if_neg hmo] at h2
              exact hmo (hinj m oldest i0 h2 ho)
          · exfalso
            simp only [if_pos, if_neg, hn, hm2] at h1 h2
            cases h2
            by_cases hno : n = oldest
            · simp only [if_pos hno] at h1
              cases h1
            · simp only [if_neg hno] at h1
              exact hno (hinj n oldest i0 h1 ho)
          · simp only [if_neg hn, if_neg hm2] at h1 h2
            by_cases hno : n = oldest
            · simp only [if_pos hno] at h1
              cases h1
            · by_cases hmo : m = oldest
              · simp only [if_pos hmo] at h2
                cases h2
              · simp only [if_neg hno] at h1
                simp only [if_neg hmo] at h2
                exact hinj n m i1 h1 h2
        · intro n i1 h1
          by_cases hn : n = note
          · subst hn
            simp only [if_pos rfl] at h1
            cases h1
            refine ⟨vold.NoteOn fpow2 n vel, ?_, Voice.noteOn_live fpow2 vold n vel⟩
            rw [listModify_get?_self, hgold]
            rfl
          · simp only [if_neg hn] at h1
            by_cases hno : n = oldest
            · simp only [if_pos hno] at h1
              cases h1
            · simp only [if_neg hno] at h1
              have hne : i1 ≠ i0 := by
                intro hcon
                exact hno (hinj n oldest i0 (hcon ▸ h1) ho)
              obtain ⟨v, hg, hlive⟩ := hmapped n i1 h1
              refine ⟨v, ?_, hlive⟩
              rw [listModify_get?_ne _ _ _ _ hne]
              exact hg
        · exact hwfMod i0
        · rw [listModify_length]
          exact hlen
    · -- found an inactive voice at index j
      obtain ⟨vj, hgj, hpj⟩ := listFindIdx_some _ _ _ hf
      have hjact : vj.IsActive = false := by
        simpa using hpj
      have hjnot : ∀ n, va.noteMap n ≠ some j := by
        intro n hc
        obtain ⟨v, hg, hlive⟩ := hmapped n j hc
        rw [hgj] at hg
        cases hg
        exact Voice.IsActive_false_not_live _ hjact hlive
      have heq : va.NoteOn fpow2 note vel
          = some { va with
              voices := listModify va.voices j (fun v => v.NoteOn fpow2 note vel)
              noteMap := fun n => if n = note then some j else va.noteMap n
              activeNotes := va.activeNotes ++ [note] } := by
        unfold VoiceAllocator.NoteOn
        rw [hm, hf]
      refine ⟨_, heq, ⟨?_, ?_, ?_, ?_, ?_, ?_⟩, rfl⟩
      · simp [List.nodup_append, hnd, hnotmem]
      · intro n
        by_cases hn : n = note
        · subst hn
          simp
        · simp only [if_neg hn]
          rw [List.mem_append]
          simp [hn, hkeys n]
      · intro n m i1 h1 h2
        by_cases hn : n = note <;> by_cases hm2 : m = note
        · rw [hn, hm2]
        · exfalso
          simp only [if_pos, if_neg, hn, hm2] at h1 h2
          cases h1
          exact hjnot m h2
        · exfalso
          simp only [if_pos, if_neg, hn, hm2] at h1 h2
          cases h2
          exact hjnot n h1
        · simp only [if_neg hn, if_neg hm2] at h1 h2
          exact hinj n m i1 h1 h2
      · intro n i1 h1
        by_cases hn : n = note
        · subst hn
          simp only [if_pos rfl] at h1
          cases h1
          refine ⟨vj.NoteOn fpow2 n vel, ?_, Voice.noteOn_live fpow2 vj n vel⟩
          rw [listModify_get?_self, hgj]
          rfl
        · simp only [if_neg hn] at h1
          have hne : i1 ≠ j := fun hcon => hjnot n (hcon ▸ h1)
          obtain ⟨v, hg, hlive⟩ := hmapped n i1 h1
          refine ⟨v, ?_, hlive⟩
          rw [listModify_get?_ne _ _ _ _ hne]
          exact hg
      · exact hwfMod j
      · rw [listModify_length]
        exact hlen
  · -- retrigger of an already-mapped note
    obtain ⟨v, hg, _⟩ := hmapped note i hm
    have heq : va.NoteOn fpow2 note vel
        = some { va with
            voices := listModify va.voices i (fun v => v.NoteOn fpow2 note vel) } := by
      unfold VoiceAllocator.NoteOn
      rw [hm]
    refine ⟨_, heq, ⟨hnd, hkeys, hinj, ?_, hwfMod i, ?_⟩, rfl⟩
    · intro n i1 h1
      by_cases hne : i1 = i
      · subst hne
        refine ⟨v.NoteOn fpow2 note vel, ?_, Voice.noteOn_live fpow2 v note vel⟩
        rw [listModify_get?_self, hg]
        rfl
      · obtain ⟨v1, hg1, hlive1⟩ := hmapped n i1 h1
        refine ⟨v1, ?_, hlive1⟩
        rw [listModify_get?_ne _ _ _ _ hne]
        exact hg1
    · rw [listModify_length]
      exact hlen

theorem inv_noteOff (va : VoiceAllocator) (note : ℤ) (h : va.Inv) :
    (va.NoteOff note).Inv ∧ (va.NoteOff note).maxVoices = va.maxVoices := by
  obtain ⟨hnd, hkeys, hinj, hmapped, hwf, hlen⟩ := h
  rcases hm : va.noteMap note with _ | i
  · have heq : va.NoteOff note = va := by
      unfold VoiceAllocator.NoteOff
      rw [hm]
    rw [heq]
    exact ⟨⟨hnd, hkeys, hinj, hmapped, hwf, hlen⟩, rfl⟩
  · have heq : va.NoteOff note
        = { va with
            voices := listModify va.voices i Voice.NoteOff
            noteMap := fun n => if n = note then none else va.noteMap n
            activeNotes := va.activeNotes.erase note } := by
      unfold VoiceAllocator.NoteOff
      rw [hm]
    rw [heq]
    refine ⟨⟨hnd.erase note, ?_, ?_, ?_, ?_, ?_⟩, rfl⟩
    · intro n
      by_cases hn : n = note
      · subst hn
        simp only [if_pos rfl]
        constructor
        · intro hc
          cases hc
        · intro hc
          exact absurd ((hnd.mem_erase_iff.mp hc).1) (by simp)
      · simp only [if_neg hn]
        rw [hnd.mem_erase_iff]
        simp [hn, hkeys n]
    · intro n m i1 h1 h2
      by_cases hn : n = note
      · simp only [if_pos hn] at h1
        cases h1
      · by_cases hm2 : m = note
        · simp only [if_pos hm2] at h2
          cases h2
        · simp only [if_neg hn] at h1
          simp only [if_neg hm2] at h2
          exact hinj n m i1 h1 h2
    · intro n i1 h1
      by_cases hn : n = note
      · simp only [if_pos hn] at h1
        cases h1
      · simp only [if_neg hn] at h1
        have hne : i1 ≠ i := by
          intro hcon
          exact hn (hinj n note i (hcon ▸ h1) hm)
        obtain ⟨v, hg, hlive⟩ := hmapped n i1 h1
        refine ⟨v, ?_, hlive⟩
        rw [listModify_get?_ne _ _ _ _ hne]
        exact hg
    · intro v hv
      rcases listModify_mem _ _ _ _ hv with hv | ⟨y, hy, rfl⟩
      · exact hwf v hv
      · exact Voice.noteOff_wf y (hwf y hy)
    · rw [listModify_length]
      exact hlen

theorem inv_allNotesOff (va : VoiceAllocator) (h : va.Inv) :
    va.AllNotesOff.Inv ∧ va.AllNotesOff.maxVoices = va.maxVoices := by
  obtain ⟨_, _, _, _, hwf, hlen⟩ := h
  refine ⟨⟨List.nodup_nil, ?_, ?_, ?_, ?_, ?_⟩, rfl⟩
  · intro n
    simp [VoiceAllocator.AllNotesOff]
  · intro n m i1 h1 h2
    simp [VoiceAllocator.AllNotesOff] at h1
  · intro n i1 h1
    simp [VoiceAllocator.AllNotesOff] at h1
  · intro v hv
    simp only [VoiceAllocator.AllNotesOff] at hv
    rcases List.mem_map.mp hv with ⟨y, hy, rfl⟩
    exact Voice.noteOff_wf y (hwf y hy)
  · simp [VoiceAllocator.AllNotesOff, hlen]

/-- Under the invariant, the active-note list never exceeds the pool size. -/
theorem inv_activeNotes_length_le (va : VoiceAllocator) (h : va.Inv) :
    va.activeNotes.length ≤ va.maxVoices := by
  obtain ⟨hnd, hkeys, hinj, hmapped, _, hlen⟩ := h
  have := nodup_mapped_length_le va.activeNotes
    (fun n => (va.noteMap n).getD 0) va.maxVoices hnd ?_ ?_
  · exact this
  · intro x hx y hy hf
    have hxs := (hkeys x).mpr hx
    have hys := (hkeys y).mpr hy
    rcases hxm : va.noteMap x with _ | ix
    · rw [hxm] at hxs
      cases hxs
    rcases hym : va.noteMap y with _ | iy
    · rw [hym] at hys
      cases hys
    dsimp only at hf
    rw [hxm, hym] at hf
    simp at hf
    exact hinj x y ix hxm (by rw [hf]; exact hym)
  · intro x hx
    have hxs := (hkeys x).mpr hx
    rcases hxm : va.noteMap x with _ | ix
    · rw [hxm] at hxs
      cases hxs
    dsimp only
    rw [hxm]
    simp only [Option.getD_some]
    obtain ⟨v, hg, _⟩ := hmapped x ix hxm
    obtain ⟨hlt, -⟩ := List.get?_eq_some.mp hg
    omega

theorem inv_applyOps (fpow2 : ℚ → ℚ) (ops : List AllocOp) :
    ∀ (va : VoiceAllocator), va.Inv → 0 < va.maxVoices →
      ∃ vb, applyOps fpow2 va ops = some vb ∧ vb.Inv
        ∧ vb.maxVoices = va.maxVoices := by
  induction ops with
  | nil => exact fun va h _ => ⟨va, rfl, h, rfl⟩
  | cons op rest ih =>
    intro va h hpool
    cases op with
    | noteOn n vel =>
      obtain ⟨vb, heq, hinv, hmax⟩ := inv_noteOn fpow2 va n vel h hpool
      obtain ⟨vc, heq2, hinv2, hmax2⟩ := ih vb hinv (hmax ▸ hpool)
      exact ⟨vc, by simp [applyOps, AllocOp.apply, heq, heq2], hinv2, hmax2.trans hmax⟩
    | noteOff n =>
      obtain ⟨hinv, hmax⟩ := inv_noteOff va n h
      obtain ⟨vc, heq2, hinv2, hmax2⟩ := ih (va.NoteOff n) hinv (hmax ▸ hpool)
      exact ⟨vc, by simp [applyOps, AllocOp.apply, heq2], hinv2, hmax2.trans hmax⟩
    | allNotesOff =>
      obtain ⟨hinv, hmax⟩ := inv_allNotesOff va h
      obtain ⟨vc, heq2, hinv2, hmax2⟩ := ih va.AllNotesOff hinv (hmax ▸ hpool)
      exact ⟨vc, by simp [applyOps, AllocOp.apply, heq2], hinv2, hmax2.trans hmax⟩

/-- C9: every finite sequence of `NoteOn`/`NoteOff`/`AllNotesOff` calls on a
fresh allocator with a non-empty pool runs without panics and maintains:
no duplicate active notes, the map's key set equal to the active-note list,
injectivity of the note-to-voice map, every mapped voice reporting active,
and list length bounded by the pool size. -/
theorem C9_allocator_invariant (fpow2 : ℚ → ℚ) (inst : Instrument) (rate : ℚ)
    (k : ℕ) (hk : 0 < k) (ops : List AllocOp) :
    ∃ vb, applyOps fpow2 (NewVoiceAllocator inst rate k) ops = some vb
      ∧ vb.activeNotes.Nodup
      ∧ (∀ n : ℤ, (vb.noteMap n).isSome = true ↔ n ∈ vb.activeNotes)
      ∧ (∀ n m i, vb.noteMap n = some i → vb.noteMap m = some i → n = m)
      ∧ (∀ n i, vb.noteMap n = some i →
           ∃ v, vb.voices.get? i = some v ∧ v.IsActive = true)
      ∧ vb.activeNotes.length ≤ k := by
  obtain ⟨vb, heq, hinv, hmax⟩ :=
    inv_applyOps fpow2 ops (NewVoiceAllocator inst rate k) (inv_new inst rate k) hk
  refine ⟨vb, heq, hinv.nodup, hinv.keys, hinv.inj, ?_, ?_⟩
  · intro n i h1
    obtain ⟨v, hg, hlive⟩ := hinv.mapped n i h1
    exact ⟨v, hg, Voice.live_IsActive v hlive⟩
  · have := inv_activeNotes_length_le vb hinv
    rw [hmax] at this
    exact this

/-- Witness for C9: pool size 4, the five-note stealing sequence. -/
theorem C9_allocator_invariant_witness :
    ∃ vb, applyOps (fun _ => 0)
        (NewVoiceAllocator defaultInstrument 44100 4)
        [AllocOp.noteOn 60 1, AllocOp.noteOn 62 1, AllocOp.noteOn 64 1,
         AllocOp.noteOn 65 1, AllocOp.noteOn 67 1, AllocOp.noteOff 62,
         AllocOp.allNotesOff] = some vb
      ∧ vb.activeNotes.Nodup
      ∧ (∀ n : ℤ, (vb.noteMap n).isSome = true ↔ n ∈ vb.activeNotes)
      ∧ (∀ n m i, vb.noteMap n = some i → vb.noteMap m = some i → n = m)
      ∧ (∀ n i, vb.noteMap n = some i →
           ∃ v, vb.voices.get? i = some v ∧ v.IsActive = true)
      ∧ vb.activeNotes.length ≤ 4 :=
  C9_allocator_invariant (fun _ => 0) defaultInstrument 44100 4 (by decide)
    [AllocOp.noteOn 60 1, AllocOp.noteOn 62 1, AllocOp.noteOn 64 1,
     AllocOp.noteOn 65 1, AllocOp.noteOn 67 1, AllocOp.noteOff 62,
     AllocOp.allNotesOff]

/-! ## Liveness of triggered voices (claim C10 groundwork) -/

theorem fmop_next_envelope (fsin : ℚ → ℚ) (fpi : ℚ) (op : FMOperator) (m : ℚ) :
    ((FMOperator.Next fsin fpi op m).2).envelope = op.envelope.step := rfl

theorem fmNext_ops_length (fsin : ℚ → ℚ) (fpi : ℚ) (fm : FMInstrument) :
    ((FMInstrument.Next fsin fpi fm).2).operators.length = fm.operators.length := by
  unfold FMInstrument.Next
  rcases hops : fm.operators with _ | ⟨o0, r0⟩
  · simp [hops]
  · cases halg : fm.algorithm <;>
      rcases r0 with _ | ⟨o1, r1⟩ <;>
        first
          | rfl
          | (rcases r1 with _ | ⟨o2, r2⟩ <;>
              first
                | rfl
                | (rcases r2 with _ | ⟨o3, r3⟩ <;> rfl))

theorem fmNext_ops_live (fsin : ℚ → ℚ) (fpi : ℚ) (fm : FMInstrument)
    (h : ∀ op ∈ fm.operators, op.envelope.stage.isLive = true) :
    ∀ op ∈ ((FMInstrument.Next fsin fpi fm).2).operators,
      op.envelope.stage.isLive = true := by
  have hstep : ∀ (o : FMOperator) (m : ℚ), o ∈ fm.operators →
      ((FMOperator.Next fsin fpi o m).2).envelope.stage.isLive = true := by
    intro o m ho
    rw [fmop_next_envelope]
    exact Envelope.step_isLive o.envelope (h o ho)
  unfold FMInstrument.Next
  rcases hops : fm.operators with _ | ⟨o0, r0⟩
  · exact fun op hop => h op hop
  · rw [hops] at h hstep
    cases halg : fm.algorithm
    case FM2OpSimple =>
      rcases r0 with _ | ⟨o1, r1⟩
      · exact fun op hop => h op hop
      · intro op hop
        dsimp only at hop
        rcases List.mem_cons.mp hop with rfl | hop
        · exact hstep _ _ (by simp)
        rcases List.mem_cons.mp hop with rfl | hop
        · exact hstep _ _ (by simp)
        · exact h _ (by simp [hop])
    case FM2OpParallel =>
      rcases r0 with _ | ⟨o1, r1⟩
      · exact fun op hop => h op hop
      · intro op hop
        dsimp only at hop
        rcases List.mem_cons.mp hop with rfl | hop
        · exact hstep _ _ (by simp)
        rcases List.mem_cons.mp hop with rfl | hop
        · exact hstep _ _ (by simp)
        · exact h _ (by simp [hop])
    case FM3OpStack =>
      rcases r0 with _ | ⟨o1, r1⟩
      · exact fun op hop => h op hop
      rcases r1 with _ | ⟨o2, r2⟩
      · exact fun op hop => h op hop
      intro op hop
      dsimp only at hop
      rcases List.mem_cons.mp hop with rfl | hop
      · exact hstep _ _ (by simp)
      rcases List.mem_cons.mp hop with rfl | hop
      · exact hstep _ _ (by simp)
      rcases List.mem_cons.mp hop with rfl | hop
      · exact hstep _ _ (by simp)
      · exact h _ (by simp [hop])
    case FM4OpPiano =>
      rcases r0 with _ | ⟨o1, r1⟩
      · exact fun op hop => h op hop
      rcases r1 with _ | ⟨o2, r2⟩
      · exact fun op hop => h op hop
      rcases r2 with _ | ⟨o3, r3⟩
      · exact fun op hop => h op hop
      intro op hop
      dsimp only at hop
      rcases List.mem_cons.mp hop with rfl | hop
      · exact hstep _ _ (by simp)
      rcases List.mem_cons.mp hop with rfl | hop
      · exact hstep _ _ (by simp)
      rcases List.mem_cons.mp hop with rfl | hop
      · exact hstep _ _ (by simp)
      rcases List.mem_cons.mp hop with rfl | hop
      · exact hstep _ _ (by simp)
      · exact h _ (by simp [hop])

/-- An FM instrument with a non-empty pool of all-live operators reports
active. -/
theorem fmInstrument_live_isActive (fm : FMInstrument)
    (hne : fm.operators ≠ [])
    (h : ∀ op ∈ fm.operators, op.envelope.stage.isLive = true) :
    fm.IsActive = true := by
  rcases hops : fm.operators with _ | ⟨o, r⟩
  · exact absurd hops hne
  · unfold FMInstrument.IsActive
    rw [hops]
    have := Envelope.isLive_isActive o.envelope (h o (by rw [hops]; simp))
    simp [List.any_cons, FMOperator.IsActive, this]

/-- One `Voice.Next` call keeps a live, well-formed voice live and
well-formed. -/
theorem voice_next_live (fsin : ℚ → ℚ) (fpi : ℚ) (v : Voice)
    (hl : v.live) (hwf : v.wf) :
    ((Voice.Next fsin fpi v).2).live ∧ ((Voice.Next fsin fpi v).2).wf := by
  obtain ⟨hact, heng⟩ := hl
  cases hu : v.useFM
  · -- subtractive path
    have hengS : v.envelope.stage.isLive = true := by
      unfold Voice.engineLive at heng
      rcases hf : v.fmInstrument with _ | fm <;> rw [hu, hf] at heng <;> exact heng
    have hstep : (v.envelope.Next.2).stage.isLive = true :=
      Envelope.step_isLive v.envelope hengS
    have hstepAct : (v.envelope.Next.2).IsActive = true :=
      Envelope.isLive_isActive _ hstep
    unfold Voice.Next
    rcases hf : v.fmInstrument with _ | fm <;> rw [hu] <;> simp only [hf] <;>
      rw [if_neg (by simp [hact]), if_neg (by simp [hstepAct])] <;>
      exact ⟨⟨hact, hstep⟩, fun hcon => Bool.noConfusion hcon⟩
  · -- FM path (a well-formed FM voice carries an instrument)
    obtain ⟨fm, hf, hne⟩ := hwf hu
    have hengF : ∀ op ∈ fm.operators, op.envelope.stage.isLive = true := by
      unfold Voice.engineLive at heng
      rw [hu, hf] at heng
      exact heng
    have hlive' := fmNext_ops_live fsin fpi fm hengF
    have hne' : ((FMInstrument.Next fsin fpi fm).2).operators ≠ [] := by
      intro hc
      have hlen := fmNext_ops_length fsin fpi fm
      rw [hc] at hlen
      rcases hops : fm.operators with _ | ⟨o, r⟩
      · exact hne hops
      · rw [hops] at hlen
        simp at hlen
    have hact' : ((FMInstrument.Next fsin fpi fm).2).IsActive = true :=
      fmInstrument_live_isActive _ hne' hlive'
    unfold Voice.Next
    rw [hu]
    simp only [hf]
    rw [if_neg (by simp [hact]), if_neg (by simp [hact'])]
    exact ⟨⟨hact, hlive'⟩, fun _ => ⟨(FMInstrument.Next fsin fpi fm).2, rfl, hne'⟩⟩

theorem voice_advanceN_live (fsin : ℚ → ℚ) (fpi : ℚ) :
    ∀ (k : ℕ) (v : Voice), v.live → v.wf →
      (Voice.advanceN fsin fpi v k).live ∧ (Voice.advanceN fsin fpi v k).wf := by
  intro k
  induction k with
  | zero => exact fun v hl hwf => ⟨hl, hwf⟩
  | succ k ih =>
    intro v hl hwf
    obtain ⟨hl', hwf'⟩ := voice_next_live fsin fpi v hl hwf
    exact ih _ hl' hwf'

/-! ## Claim C10: a triggered, unreleased voice never frees itself -/

/-- C10: for every well-formed voice (subtractive or FM), after `NoteOn`
with no subsequent `NoteOff`, `IsActive` remains true after any number of
per-sample advances: the engine's envelopes stay in Attack/Decay/Sustain —
Sustain is never exited without an explicit release, even at sustain level
0 — so a triggered voice can be reclaimed only by note-off or stealing. -/
theorem C10_triggered_voice_stays_active (fsin : ℚ → ℚ) (fpi : ℚ)
    (fpow2 : ℚ → ℚ) (v : Voice) (note : ℤ) (vol : ℚ) (hwf : v.wf) (k : ℕ) :
    (Voice.advanceN fsin fpi (Voice.NoteOn fpow2 v note vol) k).IsActive = true := by
  have hl := Voice.noteOn_live fpow2 v note vol
  have hw := Voice.noteOn_wf fpow2 v note vol hwf
  exact Voice.live_IsActive _ (voice_advanceN_live fsin fpi k _ hl hw).1

/-- Witness for C10: a subtractive voice and an FM lead voice, three
advances after the trigger. -/
theorem C10_triggered_voice_stays_active_witness :
    (Voice.advanceN (fun _ => 0) 0
        (Voice.NoteOn (fun _ => 0) (NewVoice .Square 44100) 60 1) 3).IsActive = true
  ∧ (Voice.advanceN (fun _ => 0) 0
        (Voice.NoteOn (fun _ => 0) (NewFMVoice (NewFMLeadFMInstrument 44100)) 60 1)
        3).IsActive = true :=
  ⟨C10_triggered_voice_stays_active (fun _ => 0) 0 (fun _ => 0)
      (NewVoice .Square 44100) 60 1 (fun hcon => Bool.noConfusion hcon) 3,
   C10_triggered_voice_stays_active (fun _ => 0) 0 (fun _ => 0)
      (NewFMVoice (NewFMLeadFMInstrument 44100)) 60 1
      (fun _ => ⟨NewFMLeadFMInstrument 44100, rfl,
        of_decide_eq_true (by with_unfolding_all rfl)⟩) 3⟩

/-! ## Row processing lemmas (claims C6 and C1 groundwork) -/

/-- A rest event (`Note = -1`) leaves the channel's allocator untouched. -/
theorem processChannel_rest (fpow2 : ℚ → ℚ) (pattern : Pattern) (row ch : ℕ)
    (va : VoiceAllocator) (hch : ch < pattern.Channels.length)
    (hrow : row < (pattern.Channels.get ⟨ch, hch⟩).length)
    (hnote : ((pattern.Channels.get ⟨ch, hch⟩).get ⟨row, hrow⟩).Note = -1) :
    processChannel fpow2 pattern row ch va = some va := by
  unfold processChannel
  rw [dif_pos hch, dif_pos hrow, if_neg (by rw [hnote]; decide),
    if_neg (by rw [hnote]; decide)]

/-- The channel loop acts element-wise: each output allocator is the
`processChannel` image of the input allocator at the same position, and
the length is preserved. -/
theorem processChannels_get? (fpow2 : ℚ → ℚ) (pattern : Pattern) (row : ℕ) :
    ∀ (l : List VoiceAllocator) (ch0 : ℕ) (lNew : List VoiceAllocator),
      processChannels fpow2 pattern row l ch0 = some lNew →
      lNew.length = l.length ∧
      ∀ j, j < l.length →
        ∃ va vb, l.get? j = some va ∧ lNew.get? j = some vb
          ∧ processChannel fpow2 pattern row (ch0 + j) va = some vb := by
  intro l
  induction l with
  | nil =>
    intro ch0 lNew h
    simp [processChannels] at h
    subst h
    exact ⟨rfl, fun j hj => absurd hj (by simp)⟩
  | cons va rest ih =>
    intro ch0 lNew h
    simp only [processChannels, Option.bind_eq_bind, Option.bind] at h
    rcases hpc : processChannel fpow2 pattern row ch0 va with _ | vb
    · rw [hpc] at h
      cases h
    · rw [hpc] at h
      rcases hrest : processChannels fpow2 pattern row rest (ch0 + 1) with _ | restNew
      · rw [hrest] at h
        cases h
      · rw [hrest] at h
        simp at h
        subst h
        obtain ⟨hlen, helem⟩ := ih (ch0 + 1) restNew hrest
        refine ⟨by simp [hlen], ?_⟩
        intro j hj
        cases j with
        | zero => exact ⟨va, vb, rfl, rfl, by simpa using hpc⟩
        | succ j =>
          obtain ⟨va1, vb1, hg1, hg2, hp1⟩ := helem j (by simpa using hj)
          exact ⟨va1, vb1, by simpa using hg1, by simpa using hg2,
            by rw [show ch0 + (j + 1) = (ch0 + 1) + j by omega]; exact hp1⟩

/-! ## Claim C6: rest rows leave channel allocators untouched -/

/-- C6: when the current row of a channel holds a rest event (`Note = -1`),
`processRow` leaves that channel's allocator — note map, active-note list
and every voice (hence every envelope stage) — exactly unchanged, so a
sustained note keeps ringing across rest rows. -/
theorem C6_rest_row_keeps_allocator (fpow2 : ℚ → ℚ) (p p' : Player)
    (ch patIdx : ℕ) (pattern : Pattern) (channel : List TrackerNote)
    (note : TrackerNote)
    (hseq : p.module.Sequence.get? p.currentPos = some patIdx)
    (hpat : p.module.Patterns.get? patIdx = some pattern)
    (hch : pattern.Channels.get? ch = some channel)
    (hrow : channel.get? p.currentRow = some note)
    (hnote : note.Note = -1)
    (hproc : p.processRow fpow2 = some p') :
    p'.VoiceAllocators.get? ch = p.VoiceAllocators.get? ch := by
  obtain ⟨hlt1, hg1⟩ := List.get?_eq_some.mp hseq
  obtain ⟨hlt2, hg2⟩ := List.get?_eq_some.mp hpat
  obtain ⟨hlt3, hg3⟩ := List.get?_eq_some.mp hch
  obtain ⟨hlt4, hg4⟩ := List.get?_eq_some.mp hrow
  unfold Player.processRow at hproc
  rw [dif_pos hlt1] at hproc
  rw [hg1, dif_pos hlt2, hg2] at hproc
  dsimp only at hproc
  rcases hpc : processChannels fpow2 pattern p.currentRow p.VoiceAllocators 0
    with _ | allocs
  · rw [hpc] at hproc
    cases hproc
  · rw [hpc] at hproc
    simp only [Option.some.injEq] at hproc
    obtain ⟨hlen, helem⟩ := processChannels_get? fpow2 pattern p.currentRow
      p.VoiceAllocators 0 allocs hpc
    by_cases hchlen : ch < p.VoiceAllocators.length
    · obtain ⟨va, vb, hgva, hgvb, hp⟩ := helem ch hchlen
      simp only [Nat.zero_add] at hp
      have hrow' : p.currentRow < (pattern.Channels.get ⟨ch, hlt3⟩).length := by
        rw [hg3]
        exact hlt4
      have hnote' : ((pattern.Channels.get ⟨ch, hlt3⟩).get
          ⟨p.currentRow, hrow'⟩).Note = -1 := by
        have hgg : (pattern.Channels.get ⟨ch, hlt3⟩).get? p.currentRow = some note := by
          rw [hg3]
          exact hrow
        rcases List.get?_eq_some.mp hgg with ⟨h5, hg5⟩
        rw [show (pattern.Channels.get ⟨ch, hlt3⟩).get ⟨p.currentRow, hrow'⟩
            = (pattern.Channels.get ⟨ch, hlt3⟩).get ⟨p.currentRow, h5⟩ from rfl, hg5, hnote]
      rw [processChannel_rest fpow2 pattern p.currentRow ch va hlt3 hrow' hnote'] at hp
      simp only [Option.some.injEq] at hp
      rw [← hproc]
      show allocs.get? ch = _
      rw [hgvb, hgva, hp]
    · have h1 : p.VoiceAllocators.get? ch = none :=
        List.get?_eq_none.mpr (by omega)
      have h2 : allocs.get? ch = none :=
        List.get?_eq_none.mpr (by omega)
      rw [← hproc]
      show allocs.get? ch = _
      rw [h1, h2]

/-- Witness for C6: a one-row, one-channel module whose row is a rest; the
processed player keeps channel 0's allocator. -/
theorem C6_rest_row_keeps_allocator_witness :
    (NewPlayer ⟨"t", 120, [⟨1, [[⟨-1, 1, []⟩]]⟩], [0], []⟩ 44100).VoiceAllocators.get? 0
      = (NewPlayer ⟨"t", 120, [⟨1, [[⟨-1, 1, []⟩]]⟩], [0], []⟩ 44100).VoiceAllocators.get? 0 :=
  C6_rest_row_keeps_allocator (fun _ => 0)
    (NewPlayer ⟨"t", 120, [⟨1, [[⟨-1, 1, []⟩]]⟩], [0], []⟩ 44100)
    (NewPlayer ⟨"t", 120, [⟨1, [[⟨-1, 1, []⟩]]⟩], [0], []⟩ 44100)
    0 0 ⟨1, [[⟨-1, 1, []⟩]]⟩ [⟨-1, 1, []⟩] ⟨-1, 1, []⟩
    rfl rfl rfl rfl rfl (by with_unfolding_all rfl)

/-! ## Claim C7: determinism of rendering -/

/-- C7: two players constructed from the same module and sample rate
produce identical sample sequences for any number of `Next` calls.  The
whole embedded pipeline — including the noise waveform, a pure function of
the oscillator phase — is explicit-state functional, so rendering is a
function of (module, rate, length) with no hidden inputs. -/
theorem C7_render_deterministic (fsin : ℚ → ℚ) (fpi : ℚ) (fpow2 : ℚ → ℚ)
    (m : TrackerModule) (rate : ℚ) (p1 p2 : Player)
    (h1 : p1 = NewPlayer m rate) (h2 : p2 = NewPlayer m rate) (n : ℕ) :
    Player.render fsin fpi fpow2 p1 n = Player.render fsin fpi fpow2 p2 n := by
  subst h1
  subst h2
  rfl

/-- Witness for C7 at a concrete one-pattern module, 2 samples. -/
theorem C7_render_deterministic_witness :
    Player.render (fun _ => 0) 0 (fun _ => 0)
        (NewPlayer ⟨"t", 120, [⟨1, [[⟨-1, 1, []⟩]]⟩], [0], []⟩ 44100) 2
      = Player.render (fun _ => 0) 0 (fun _ => 0)
        (NewPlayer ⟨"t", 120, [⟨1, [[⟨-1, 1, []⟩]]⟩], [0], []⟩ 44100) 2 :=
  C7_render_deterministic (fun _ => 0) 0 (fun _ => 0)
    ⟨"t", 120, [⟨1, [[⟨-1, 1, []⟩]]⟩], [0], []⟩ 44100
    (NewPlayer ⟨"t", 120, [⟨1, [[⟨-1, 1, []⟩]]⟩], [0], []⟩ 44100)
    (NewPlayer ⟨"t", 120, [⟨1, [[⟨-1, 1, []⟩]]⟩], [0], []⟩ 44100)
    rfl rfl 2

/-! ## Player stepping lemmas (claim C1 groundwork) -/

theorem player_stepN_succ (fsin : ℚ → ℚ) (fpi : ℚ) (fpow2 : ℚ → ℚ)
    (p : Player) (n : ℕ) :
    Player.stepN fsin fpi fpow2 p (n + 1)
      = Option.bind (Player.stepN fsin fpi fpow2 p n)
          (fun q => (Player.Next fsin fpi fpow2 q).map Prod.snd) := by
  induction n generalizing p with
  | zero =>
    show (match Player.Next fsin fpi fpow2 p with
          | none => none
          | some (_, p1) => Player.stepN fsin fpi fpow2 p1 0) = _
    rcases h : Player.Next fsin fpi fpow2 p with _ | ⟨s, p1⟩ <;> simp [h, Player.stepN]
  | succ n ih =>
    rcases h : Player.Next fsin fpi fpow2 p with _ | ⟨s, p1⟩
    · have hL : Player.stepN fsin fpi fpow2 p (n + 1 + 1) = none := by
        show (match Player.Next fsin fpi fpow2 p with
              | none => none
              | some (_, q) => Player.stepN fsin fpi fpow2 q (n + 1)) = none
        rw [h]
      have hR : Player.stepN fsin fpi fpow2 p (n + 1) = none := by
        show (match Player.Next fsin fpi fpow2 p with
              | none => none
              | some (_, q) => Player.stepN fsin fpi fpow2 q n) = none
        rw [h]
      rw [hL, hR]
      rfl
    · have hL : Player.stepN fsin fpi fpow2 p (n + 1 + 1)
          = Player.stepN fsin fpi fpow2 p1 (n + 1) := by
        show (match Player.Next fsin fpi fpow2 p with
              | none => none
              | some (_, q) => Player.stepN fsin fpi fpow2 q (n + 1)) = _
        rw [h]
      have hR : Player.stepN fsin fpi fpow2 p (n + 1)
          = Player.stepN fsin fpi fpow2 p1 n := by
        show (match Player.Next fsin fpi fpow2 p with
              | none => none
              | some (_, q) => Player.stepN fsin fpi fpow2 q n) = _
        rw [h]
      rw [hL, hR, ih p1]

/-- The chord-trigger fold of `processChannel` succeeds and preserves
allocator consistency. -/
theorem chordFold_cons (fpow2 : ℚ → ℚ) (vel : ℚ) :
    ∀ (chord : List ℤ) (va : VoiceAllocator), va.Consistent → 0 < va.maxVoices →
      ∃ vb, chord.foldlM (fun acc chordNote =>
              if chordNote ≥ 0 then acc.NoteOn fpow2 chordNote vel else some acc) va
            = some vb
        ∧ vb.Consistent ∧ vb.maxVoices = va.maxVoices := by
  intro chord
  induction chord with
  | nil => exact fun va h hp => ⟨va, rfl, h, rfl⟩
  | cons cn rest ih =>
    intro va h hp
    by_cases hcn : cn ≥ 0
    · obtain ⟨vb, heq, hb, hmax, _⟩ := cons_noteOn fpow2 va cn vel h hp
      obtain ⟨vc, heq2, hc, hmax2⟩ := ih vb hb (hmax ▸ hp)
      exact ⟨vc, by simp [List.foldlM, hcn, heq, heq2], hc, hmax2.trans hmax⟩
    · obtain ⟨vc, heq2, hc, hmax2⟩ := ih va h hp
      exact ⟨vc, by simp [List.foldlM, hcn, heq2], hc, hmax2⟩

/-- One channel of `processRow` succeeds and preserves consistency. -/
theorem processChannel_cons (fpow2 : ℚ → ℚ) (pattern : Pattern) (row ch : ℕ)
    (va : VoiceAllocator) (h : va.Consistent) (hp : 0 < va.maxVoices) :
    ∃ vb, processChannel fpow2 pattern row ch va = some vb
      ∧ vb.Consistent ∧ vb.maxVoices = va.maxVoices := by
  unfold processChannel
  by_cases hch : ch < pattern.Channels.length
  · rw [dif_pos hch]
    by_cases hrow : row < (pattern.Channels.get ⟨ch, hch⟩).length
    · rw [dif_pos hrow]
      by_cases hn : ((pattern.Channels.get ⟨ch, hch⟩).get ⟨row, hrow⟩).Note ≥ 0
      · rw [if_pos hn]
        dsimp only
        obtain ⟨vb, heq, hb, hmax, -⟩ :=
          cons_noteOn fpow2 va ((pattern.Channels.get ⟨ch, hch⟩).get ⟨row, hrow⟩).Note
            (if ((pattern.Channels.get ⟨ch, hch⟩).get ⟨row, hrow⟩).Volume = 0 then 1
             else ((pattern.Channels.get ⟨ch, hch⟩).get ⟨row, hrow⟩).Volume) h hp
        rw [heq]
        obtain ⟨vc, heq2, hc, hmax2⟩ := chordFold_cons fpow2
          (if ((pattern.Channels.get ⟨ch, hch⟩).get ⟨row, hrow⟩).Volume = 0 then 1
           else ((pattern.Channels.get ⟨ch, hch⟩).get ⟨row, hrow⟩).Volume)
          ((pattern.Channels.get ⟨ch, hch⟩).get ⟨row, hrow⟩).Chord vb hb (hmax ▸ hp)
        exact ⟨vc, heq2, hc, hmax2.trans hmax⟩
      · rw [if_neg hn]
        by_cases h2 : ((pattern.Channels.get ⟨ch, hch⟩).get ⟨row, hrow⟩).Note = -2
        · rw [if_pos h2]
          obtain ⟨hb, hmax, _⟩ := cons_allNotesOff va h
          exact ⟨_, rfl, hb, hmax⟩
        · rw [if_neg h2]
          exact ⟨va, rfl, h, rfl⟩
    · rw [dif_neg hrow]
      exact ⟨va, rfl, h, rfl⟩
  · rw [dif_neg hch]
    exact ⟨va, rfl, h, rfl⟩

/-- The channel loop succeeds and preserves consistency of every
allocator. -/
theorem processChannels_cons (fpow2 : ℚ → ℚ) (pattern : Pattern) (row : ℕ) :
    ∀ (l : List VoiceAllocator) (ch0 : ℕ),
      (∀ va ∈ l, va.Consistent ∧ 0 < va.maxVoices) →
      ∃ lNew, processChannels fpow2 pattern row l ch0 = some lNew
        ∧ (∀ va ∈ lNew, va.Consistent ∧ 0 < va.maxVoices) := by
  intro l
  induction l with
  | nil => exact fun ch0 _ => ⟨[], rfl, by simp⟩
  | cons va rest ih =>
    intro ch0 h
    obtain ⟨hva, hvap⟩ := h va (List.mem_cons_self _ _)
    obtain ⟨vb, heq, hb, hmax⟩ := processChannel_cons fpow2 pattern row ch0 va hva hvap
    obtain ⟨restNew, heq2, h2⟩ := ih (ch0 + 1) (fun x hx => h x (List.mem_cons_of_mem _ hx))
    refine ⟨vb :: restNew, ?_, ?_⟩
    · simp [processChannels, heq, heq2]
    · intro x hx
      rcases List.mem_cons.mp hx with rfl | hx
      · exact ⟨hb, hmax ▸ hvap⟩
      · exact h2 x hx

/-- `processRow` succeeds under allocator consistency; it never touches the
cursor fields or the module. -/
theorem processRow_ok (fpow2 : ℚ → ℚ) (p : Player)
    (h : ∀ va ∈ p.VoiceAllocators, va.Consistent ∧ 0 < va.maxVoices) :
    ∃ q, p.processRow fpow2 = some q
      ∧ (∀ va ∈ q.VoiceAllocators, va.Consistent ∧ 0 < va.maxVoices)
      ∧ q.module = p.module ∧ q.sampleRate = p.sampleRate
      ∧ q.currentPos = p.currentPos ∧ q.currentRow = p.currentRow
      ∧ q.sampleCounter = p.sampleCounter ∧ q.samplesPerRow = p.samplesPerRow
      ∧ q.done = p.done := by
  unfold Player.processRow
  by_cases hpos : p.currentPos < p.module.Sequence.length
  · rw [dif_pos hpos]
    by_cases hpat : p.module.Sequence.get ⟨p.currentPos, hpos⟩ < p.module.Patterns.length
    · rw [dif_pos hpat]
      obtain ⟨lNew, heq, h2⟩ := processChannels_cons fpow2 _ p.currentRow
        p.VoiceAllocators 0 h
      dsimp only
      rw [heq]
      exact ⟨_, rfl, h2, rfl, rfl, rfl, rfl, rfl, rfl, rfl⟩
    · rw [dif_neg hpat]
      exact ⟨p, rfl, h, rfl, rfl, rfl, rfl, rfl, rfl, rfl⟩
  · rw [dif_neg hpos]
    exact ⟨p, rfl, h, rfl, rfl, rfl, rfl, rfl, rfl, rfl⟩

/-- The channel mix preserves allocator consistency. -/
theorem mixAllocators_cons (fsin : ℚ → ℚ) (fpi : ℚ) :
    ∀ (l : List VoiceAllocator),
      (∀ va ∈ l, va.Consistent ∧ 0 < va.maxVoices) →
      ∀ va ∈ (mixAllocators fsin fpi l).2, va.Consistent ∧ 0 < va.maxVoices := by
  intro l
  induction l with
  | nil => simp [mixAllocators]
  | cons va rest ih =>
    intro h x hx
    rcases hm1 : VoiceAllocator.Next fsin fpi va with ⟨s, vaNew⟩
    rcases hm2 : mixAllocators fsin fpi rest with ⟨srest, restNew⟩
    simp only [mixAllocators, hm1, hm2] at hx
    rcases List.mem_cons.mp hx with rfl | hx
    · obtain ⟨hc, hcp⟩ := h va (List.mem_cons_self _ _)
      obtain ⟨hc2, hmax, _⟩ := cons_next fsin fpi va hc
      rw [hm1] at hc2 hmax
      exact ⟨hc2, hmax ▸ hcp⟩
    · have := ih (fun y hy => h y (List.mem_cons_of_mem _ hy)) x
      rw [hm2] at this
      exact this hx

/-- The cursor cascade for the C1 module shape: sequence `[0]`, a single
4-row pattern, 5512 samples per row, sequence position still 0. -/
theorem advanceCursor_spec (q : Player) (pat : Pattern)
    (hseq : q.module.Sequence = [0]) (hpat : q.module.Patterns = [pat])
    (hrows : pat.Rows = 4) (hspr : q.samplesPerRow = 5512)
    (hpos : q.currentPos = 0) :
    q.advanceCursor =
      if q.sampleCounter + 1 < 5512 then
        { q with sampleCounter := q.sampleCounter + 1 }
      else if q.currentRow + 1 < 4 then
        { q with sampleCounter := 0, currentRow := q.currentRow + 1 }
      else
        { q with sampleCounter := 0, currentRow := 0, currentPos := 1,
                 done := true } := by
  unfold Player.advanceCursor
  by_cases h1 : q.sampleCounter + 1 < 5512
  · rw [if_pos h1, if_neg (show ¬((q.sampleCounter + 1 : ℕ) : ℤ) ≥ q.samplesPerRow by
      rw [hspr]; omega)]
  · rw [if_neg h1, if_pos (show ((q.sampleCounter + 1 : ℕ) : ℤ) ≥ q.samplesPerRow by
      rw [hspr]; omega)]
    rw [dif_pos (show q.currentPos < q.module.Sequence.length by
      rw [hseq, hpos]; exact Nat.zero_lt_one)]
    have hidx : q.module.Sequence.get
        ⟨q.currentPos, by rw [hseq, hpos]; exact Nat.zero_lt_one⟩ = 0 := by
      have : ∀ (l : List ℕ) (hl : l = [0]) (i : ℕ) (hi : i = 0)
          (hlt : i < l.length), l.get ⟨i, hlt⟩ = 0 := by
        intro l hl i hi hlt
        subst hl hi
        rfl
      exact this _ hseq _ hpos _
    rw [hidx]
    rw [dif_pos (show 0 < q.module.Patterns.length by rw [hpat]; exact Nat.zero_lt_one)]
    have hget : q.module.Patterns.get
        ⟨0, by rw [hpat]; exact Nat.zero_lt_one⟩ = pat := by
      have : ∀ (l : List Pattern) (hl : l = [pat]) (hlt : 0 < l.length),
          l.get ⟨0, hlt⟩ = pat := by
        intro l hl hlt
        subst hl
        rfl
      exact this _ hpat _
    rw [hget, hrows]
    by_cases h2 : q.currentRow + 1 < 4
    · rw [if_neg (show ¬q.currentRow + 1 ≥ 4 by omega), if_pos h2]
    · rw [if_pos (show q.currentRow + 1 ≥ 4 by omega), if_neg h2]
      rw [if_pos (show q.currentPos + 1 ≥ q.module.Sequence.length by
        rw [hseq, hpos]; decide)]
      rw [show q.currentPos + 1 = 1 by rw [hpos]]

/-- One `Player.Next` call on a not-done player over the C1 module shape:
it always succeeds, preserves allocator consistency, the module and the
samples-per-row value, and moves the cursor one sample forward (wrapping
into the next row after sample 5512 and setting `done` after row 4). -/
theorem nextC1_spec (fsin : ℚ → ℚ) (fpi : ℚ) (fpow2 : ℚ → ℚ) (p : Player)
    (pat : Pattern) (hseq : p.module.Sequence = [0])
    (hpat : p.module.Patterns = [pat]) (hrows : pat.Rows = 4)
    (hspr : p.samplesPerRow = 5512) (hpos : p.currentPos = 0)
    (hdone : p.done = false)
    (hcons : ∀ va ∈ p.VoiceAllocators, va.Consistent ∧ 0 < va.maxVoices) :
    ∃ s q, Player.Next fsin fpi fpow2 p = some (s, q)
      ∧ q.module = p.module ∧ q.samplesPerRow = 5512
      ∧ (∀ va ∈ q.VoiceAllocators, va.Consistent ∧ 0 < va.maxVoices)
      ∧ ((p.sampleCounter + 1 < 5512
            ∧ q.done = false ∧ q.currentPos = 0
            ∧ q.currentRow = p.currentRow ∧ q.sampleCounter = p.sampleCounter + 1)
        ∨ (¬p.sampleCounter + 1 < 5512 ∧ p.currentRow + 1 < 4
            ∧ q.done = false ∧ q.currentPos = 0
            ∧ q.currentRow = p.currentRow + 1 ∧ q.sampleCounter = 0)
        ∨ (¬p.sampleCounter + 1 < 5512 ∧ ¬p.currentRow + 1 < 4
            ∧ q.done = true)) := by
  have hpr : ∃ p1, (if p.sampleCounter = 0 then p.processRow fpow2 else some p) = some p1
      ∧ (∀ va ∈ p1.VoiceAllocators, va.Consistent ∧ 0 < va.maxVoices)
      ∧ p1.module = p.module ∧ p1.currentPos = p.currentPos
      ∧ p1.currentRow = p.currentRow ∧ p1.sampleCounter = p.sampleCounter
      ∧ p1.samplesPerRow = p.samplesPerRow ∧ p1.done = p.done := by
    by_cases hc0 : p.sampleCounter = 0
    · rw [if_pos hc0]
      obtain ⟨q, hq, h1, h2, -, h4, h5, h6, h7, h8⟩ := processRow_ok fpow2 p hcons
      exact ⟨q, hq, h1, h2, h4, h5, h6, h7, h8⟩
    · rw [if_neg hc0]
      exact ⟨p, rfl, hcons, rfl, rfl, rfl, rfl, rfl, rfl⟩
  obtain ⟨p1, hp1, hcons1, hmod1, hpos1, hrow1, hcnt1, hspr1, hdone1⟩ := hpr
  set q0 : Player :=
    { p1 with VoiceAllocators := (mixAllocators fsin fpi p1.VoiceAllocators).2 } with hq0
  have hbind : Player.Next fsin fpi fpow2 p
      = Option.bind (if p.sampleCounter = 0 then p.processRow fpow2 else some p)
          (fun pr => match mixAllocators fsin fpi pr.VoiceAllocators with
            | (s, allocs) =>
              some (s / ((pr.VoiceAllocators.length : ℚ)),
                Player.advanceCursor { pr with VoiceAllocators := allocs })) := by
    unfold Player.Next
    rw [if_neg (show ¬p.done = true by rw [hdone]; decide)]
    by_cases hc0 : p.sampleCounter = 0
    · rw [if_pos hc0, if_pos hc0]
      rfl
    · rw [if_neg hc0, if_neg hc0]
      rfl
  have hnext : ∃ s, Player.Next fsin fpi fpow2 p = some (s, q0.advanceCursor) := by
    rcases hmix : mixAllocators fsin fpi p1.VoiceAllocators with ⟨s, allocs⟩
    refine ⟨s / ((p1.VoiceAllocators.length : ℚ)), ?_⟩
    rw [hbind, hp1]
    show (match mixAllocators fsin fpi p1.VoiceAllocators with
          | (s, allocs) =>
            some (s / ((p1.VoiceAllocators.length : ℚ)),
              Player.advanceCursor { p1 with VoiceAllocators := allocs })) = _
    rw [hq0, hmix]
  obtain ⟨s, hnext⟩ := hnext
  have hqmod : q0.module = p.module := by rw [hq0]; exact hmod1
  have hqcnt : q0.sampleCounter = p.sampleCounter := by rw [hq0]; exact hcnt1
  have hqrow : q0.currentRow = p.currentRow := by rw [hq0]; exact hrow1
  have hqpos : q0.currentPos = 0 := by rw [hq0]; exact hpos1.trans hpos
  have hqdone : q0.done = false := by rw [hq0]; exact hdone1.trans hdone
  have hqspr : q0.samplesPerRow = 5512 := by rw [hq0]; exact hspr1.trans hspr
  have hqcons : ∀ va ∈ q0.VoiceAllocators, va.Consistent ∧ 0 < va.maxVoices := by
    rw [hq0]
    exact mixAllocators_cons fsin fpi p1.VoiceAllocators hcons1
  have hspec := advanceCursor_spec q0 pat (by rw [hqmod]; exact hseq)
    (by rw [hqmod]; exact hpat) hrows hqspr hqpos
  rw [hqcnt, hqrow] at hspec
  by_cases hA : p.sampleCounter + 1 < 5512
  · rw [if_pos hA] at hspec
    refine ⟨s, q0.advanceCursor, hnext, ?_, ?_, ?_,
      Or.inl ⟨hA, ?_, ?_, ?_, ?_⟩⟩
    · rw [hspec]; exact hqmod
    · rw [hspec]; exact hqspr
    · rw [hspec]; exact hqcons
    · rw [hspec]; exact hqdone
    · rw [hspec]; exact hqpos
    · rw [hspec]
    · rw [hspec]
  · rw [if_neg hA] at hspec
    by_cases hB : p.currentRow + 1 < 4
    · rw [if_pos hB] at hspec
      refine ⟨s, q0.advanceCursor, hnext, ?_, ?_, ?_,
        Or.inr (Or.inl ⟨hA, hB, ?_, ?_, ?_, ?_⟩)⟩
      · rw [hspec]; exact hqmod
      · rw [hspec]; exact hqspr
      · rw [hspec]; exact hqcons
      · rw [hspec]; exact hqdone
      · rw [hspec]; exact hqpos
      · rw [hspec]
      · rw [hspec]
    · rw [if_neg hB] at hspec
      refine ⟨s, q0.advanceCursor, hnext, ?_, ?_, ?_,
        Or.inr (Or.inr ⟨hA, hB, ?_⟩)⟩
      · rw [hspec]; exact hqmod
      · rw [hspec]; exact hqspr
      · rw [hspec]; exact hqcons
      · rw [hspec]

/-- `NewPlayer` at tempo 120 and rate 44100 truncates `60/120/4*44100 =
5512.5` down to 5512 samples per row. -/
theorem newPlayerC1_samplesPerRow (title : String) (insts : List Instrument)
    (c : List TrackerNote) :
    (NewPlayer ⟨title, 120, [⟨4, [c]⟩], [0], insts⟩ 44100).samplesPerRow = 5512 := by
  show ratTrunc (60 / (((120 : ℤ) : ℚ)) / 4 * 44100) = 5512
  exact of_decide_eq_true (by with_unfolding_all rfl)

/-- Cursor invariant of the C1 player: for `k ≤ 4·5512`, `k` steps from a
fresh player over a single-pattern 4-row one-channel module at tempo 120
and rate 44100 always succeed, keep every allocator consistent, and place
the cursor at row `k / 5512`, sample `k % 5512`, until the final step sets
`done`. -/
theorem playerC1_invariant (fsin : ℚ → ℚ) (fpi : ℚ) (fpow2 : ℚ → ℚ)
    (title : String) (insts : List Instrument) (c : List TrackerNote) :
    ∀ k : ℕ, k ≤ 22048 →
      ∃ p, Player.stepN fsin fpi fpow2
          (NewPlayer ⟨title, 120, [⟨4, [c]⟩], [0], insts⟩ 44100) k = some p
        ∧ p.module = (⟨title, 120, [⟨4, [c]⟩], [0], insts⟩ : TrackerModule)
        ∧ p.samplesPerRow = 5512
        ∧ (∀ va ∈ p.VoiceAllocators, va.Consistent ∧ 0 < va.maxVoices)
        ∧ ((k = 22048 ∧ p.done = true)
            ∨ (k < 22048 ∧ p.done = false ∧ p.currentPos = 0
                ∧ p.currentRow = k / 5512 ∧ p.sampleCounter = k % 5512)) := by
  intro k
  induction k with
  | zero =>
    intro _
    refine ⟨NewPlayer ⟨title, 120, [⟨4, [c]⟩], [0], insts⟩ 44100, rfl, rfl, ?_, ?_, ?_⟩
    · exact newPlayerC1_samplesPerRow title insts c
    · intro va hva
      have hva' : va ∈ (List.range 8).map (fun i =>
          NewVoiceAllocator
            ((⟨title, 120, [⟨4, [c]⟩], [0], insts⟩ : TrackerModule).Instruments.getD i
              defaultInstrument) (44100 : ℚ) 4) := hva
      obtain ⟨i, -, rfl⟩ := List.mem_map.mp hva'
      exact ⟨cons_new _ _ _, Nat.succ_pos 3⟩
    · right
      exact ⟨by omega, rfl, rfl, show (0 : ℕ) = 0 / 5512 by omega,
        show (0 : ℕ) = 0 % 5512 by omega⟩
  | succ k ih =>
    intro hk1
    obtain ⟨p, hstep, hmod, hspr, hcons, hcur⟩ := ih (by omega)
    rcases hcur with ⟨hkeq, -⟩ | ⟨hklt, hdone, hpos, hrow, hcnt⟩
    · omega
    obtain ⟨s, q, hnext, hqmod, hqspr, hqcons, hqcur⟩ :=
      nextC1_spec fsin fpi fpow2 p ⟨4, [c]⟩
        (by rw [hmod]) (by rw [hmod]) rfl hspr hpos hdone hcons
    have hstep' : Player.stepN fsin fpi fpow2
        (NewPlayer ⟨title, 120, [⟨4, [c]⟩], [0], insts⟩ 44100) (k + 1) = some q := by
      rw [player_stepN_succ, hstep]
      show (Player.Next fsin fpi fpow2 p).map Prod.snd = some q
      rw [hnext]
      rfl
    refine ⟨q, hstep', hqmod.trans hmod, hqspr, hqcons, ?_⟩
    rcases hqcur with ⟨hA, hqd, hqp, hqr, hqc⟩ | ⟨hA, hB, hqd, hqp, hqr, hqc⟩ | ⟨hA, hB, hqd⟩
    · right
      refine ⟨by omega, hqd, hqp, ?_, ?_⟩
      · rw [hqr, hrow]; omega
      · rw [hqc, hcnt]; omega
    · right
      refine ⟨by omega, hqd, hqp, ?_, ?_⟩
      · rw [hqr, hrow]; omega
      · rw [hqc]; omega
    · left
      refine ⟨by omega, hqd⟩

/-- C1: for a module with `Sequence = [0]`, pattern 0 having 4 rows and 1
channel, tempo 120, and sample rate 44100, the player's samples-per-row
value equals 5512, `IsDone` is false after any fewer than `4·5512` calls
to the per-sample generator `Next`, and `IsDone` is true after exactly
`4·5512` calls. -/
theorem C1_samples_per_row_and_track_length (fsin : ℚ → ℚ) (fpi : ℚ)
    (fpow2 : ℚ → ℚ) (title : String) (insts : List Instrument)
    (c : List TrackerNote) :
    (NewPlayer ⟨title, 120, [⟨4, [c]⟩], [0], insts⟩ 44100).samplesPerRow = 5512
    ∧ (∀ k : ℕ, k < 4 * 5512 →
        ∃ p, Player.stepN fsin fpi fpow2
            (NewPlayer ⟨title, 120, [⟨4, [c]⟩], [0], insts⟩ 44100) k = some p
          ∧ p.IsDone = false)
    ∧ (∃ p, Player.stepN fsin fpi fpow2
          (NewPlayer ⟨title, 120, [⟨4, [c]⟩], [0], insts⟩ 44100) (4 * 5512) = some p
        ∧ p.IsDone = true) := by
  refine ⟨newPlayerC1_samplesPerRow title insts c, ?_, ?_⟩
  · intro k hk
    obtain ⟨p, hstep, -, -, -, hcur⟩ :=
      playerC1_invariant fsin fpi fpow2 title insts c k (by omega)
    rcases hcur with ⟨hkeq, -⟩ | ⟨-, hdone, -⟩
    · omega
    · exact ⟨p, hstep, hdone⟩
  · rw [show (4 * 5512 : ℕ) = 22048 by norm_num]
    obtain ⟨p, hstep, -, -, -, hcur⟩ :=
      playerC1_invariant fsin fpi fpow2 title insts c 22048 (by omega)
    rcases hcur with ⟨-, hdone⟩ | ⟨hlt, -⟩
    · exact ⟨p, hstep, hdone⟩
    · omega

/-- C1 at a concrete module (empty channel, no instruments) and concrete
transcendental stand-ins. -/
theorem C1_samples_per_row_and_track_length_witness :
    (NewPlayer ⟨"t", 120, [⟨4, [[]]⟩], [0], []⟩ 44100).samplesPerRow = 5512
    ∧ (∃ p, Player.stepN (fun _ => 0) 3 (fun _ => 1)
          (NewPlayer ⟨"t", 120, [⟨4, [[]]⟩], [0], []⟩ 44100) (4 * 5512) = some p
        ∧ p.IsDone = true) :=
  ⟨(C1_samples_per_row_and_track_length (fun _ => 0) 3 (fun _ => 1) "t" [] []).1,
   (C1_samples_per_row_and_track_length (fun _ => 0) 3 (fun _ => 1) "t" [] []).2.2⟩
